import Mathlib

/-!
Verification development for the post-training-quantization calibration
engine of the APHQ-ViT repository.  The embedding covers:

* `quantizers/uniform.py`           — the affine `UniformQuantizer`;
* `Object-Detection/tools/quant_layers/matmul.py`
                                     — the batched-matmul quantized operator,
                                       its similarity scorer, candidate
                                       generator and hyperparameter search;
* `utils/calibrator.py`             — the calibration orchestrator.

Tensors are modelled as nested lists of real numbers in the layout the code
uses for ViT attention matmuls (`[batch, heads, rows, cols]`, the class
default `input_shape_lenth = 4`).  Floating point is idealised to `ℝ`;
`torch.round` is round-half-to-even, which is modelled exactly.  CUDA
device-memory queries are modelled as an explicit `totalMemory : ℕ`
argument (the spec's external "available working memory" capability).
-/

namespace APHQ

/-- A 2-D tensor slice (`rows × cols`). -/
abbrev Mat := List (List ℝ)

/-- A 4-D tensor `[batch, heads, rows, cols]`. -/
abbrev T4 := List (List Mat)

/-- Arithmetic mean of a list (PyTorch `mean`; `[]` gives `0/0 = 0`). -/
noncomputable def meanR (l : List ℝ) : ℝ := l.sum / l.length

/-- Elementwise map over a matrix. -/
def matMap (f : ℝ → ℝ) (M : Mat) : Mat := M.map (List.map f)

/-- Flatten a matrix row-major. -/
def matFlat (M : Mat) : List ℝ := M.flatten

/-- Elementwise map over a 4-D tensor with access to the head index
(dimension 1), which is how `[1, H, 1, 1]`-shaped parameters broadcast. -/
def map4H (f : ℕ → ℝ → ℝ) (x : T4) : T4 :=
  x.map fun sample => sample.enum.map fun hM => matMap (f hM.1) hM.2

/-- Elementwise map over a 4-D tensor. -/
def map4 (f : ℝ → ℝ) (x : T4) : T4 := x.map fun sample => sample.map (matMap f)

/-- Elementwise combination of two same-shaped matrices. -/
def zipMat (f : ℝ → ℝ → ℝ) (M N : Mat) : Mat := List.zipWith (List.zipWith f) M N

/-- Elementwise combination of two same-shaped 4-D tensors. -/
def zip4 (f : ℝ → ℝ → ℝ) (x y : T4) : T4 :=
  List.zipWith (List.zipWith (zipMat f)) x y

/-- Three-way `zipWith` on lists. -/
def zipWith3R (f : ℝ → ℝ → ℝ → ℝ) : List ℝ → List ℝ → List ℝ → List ℝ
  | a :: as, b :: bs, c :: cs => f a b c :: zipWith3R f as bs cs
  | _, _, _ => []

/-- Three-way elementwise combination of matrices. -/
def zipMat3 (f : ℝ → ℝ → ℝ → ℝ) : Mat → Mat → Mat → Mat
  | a :: as, b :: bs, c :: cs => zipWith3R f a b c :: zipMat3 f as bs cs
  | _, _, _ => []

/-- Three-way elementwise combination of per-sample head lists. -/
def zipSample3 (f : ℝ → ℝ → ℝ → ℝ) : List Mat → List Mat → List Mat → List Mat
  | a :: as, b :: bs, c :: cs => zipMat3 f a b c :: zipSample3 f as bs cs
  | _, _, _ => []

/-- Three-way elementwise combination of 4-D tensors. -/
def zip4With3 (f : ℝ → ℝ → ℝ → ℝ) : T4 → T4 → T4 → T4
  | a :: as, b :: bs, c :: cs => zipSample3 f a b c :: zip4With3 f as bs cs
  | _, _, _ => []

/-- Flatten a 4-D tensor row-major (PyTorch memory order). -/
def flat4 (x : T4) : List ℝ := (x.map fun sample => (sample.map matFlat).flatten).flatten

/-- `tensor.numel()`. -/
def numel4 (x : T4) : ℕ := (flat4 x).length

/-- `tensor.pow(2).sum()`. -/
noncomputable def sumSq4 (x : T4) : ℝ := ((flat4 x).map fun v => v ^ 2).sum

/-- Dot product of two vectors. -/
noncomputable def dotR (u v : List ℝ) : ℝ := (List.zipWith (· * ·) u v).sum

/-- Matrix product; column count of the result is read off `B`'s first row
(tensors in the code are rectangular). -/
noncomputable def matMul (A B : Mat) : Mat :=
  A.map fun row =>
    (List.range (B.headD []).length).map fun j => dotR row (B.map fun br => br.getD j 0)

/-- Batched matrix multiplication `A @ B` on `[batch, heads, ·, ·]` tensors. -/
noncomputable def bmm (x y : T4) : T4 := List.zipWith (List.zipWith matMul) x y

/-- `torch.clamp(v, lo, hi)`. -/
noncomputable def clampR (lo hi v : ℝ) : ℝ := min (max v lo) hi

/-- `torch.round`: round half to even (banker's rounding). -/
noncomputable def roundTE (x : ℝ) : ℤ :=
  if Int.fract x = 1 / 2 then (if Even ⌊x⌋ then ⌊x⌋ else ⌊x⌋ + 1) else round x

/-- `torch.argmax` along one axis: index of the maximum, lowest index on
ties. -/
noncomputable def argmaxIdx : List ℝ → ℕ
  | [] => 0
  | [_] => 0
  | x :: y :: ys =>
      let j := argmaxIdx (y :: ys)
      if (y :: ys).getD j 0 > x then j + 1 else 0

/-- Insertion into a sorted list (ascending). -/
noncomputable def insertR (x : ℝ) : List ℝ → List ℝ
  | [] => [x]
  | y :: ys => if x ≤ y then x :: y :: ys else y :: insertR x ys

/-- Ascending sort, used to model `torch.quantile`'s order statistics. -/
noncomputable def sortR (l : List ℝ) : List ℝ := l.foldr insertR []

/-- `torch.quantile(xs, q)` with the default linear interpolation: position
`q * (n - 1)` in the sorted data, interpolated between the two neighbouring
order statistics. -/
noncomputable def quantileLinear (xs : List ℝ) (q : ℝ) : ℝ :=
  let s := sortR xs
  let pos : ℝ := q * ((s.length : ℝ) - 1)
  let i : ℕ := ⌊pos⌋.toNat
  let lo := s.getD i 0
  let hi := s.getD (i + 1) lo
  lo + (pos - (i : ℝ)) * (hi - lo)

/-- `math.ceil(a / b)` on naturals. -/
def ceilDivNat (a b : ℕ) : ℕ := (a + b - 1) / b

/-- The start offsets generated by `range(st, n, step)`. -/
def chunkList (st n step : ℕ) : List ℕ :=
  if _h : st < n ∧ 0 < step then st :: chunkList (st + step) n step else []
termination_by n - st
decreasing_by omega

/-- The candidate indices visited by the grouped loop
`for p_st in range(0, n, step): for p in range(p_st, min(n, p_st+step))`.
The code evaluates each group as one vectorised tensor operation; the
per-candidate results are these indices in this order. -/
def candIdxs (n step : ℕ) : List ℕ :=
  (chunkList 0 n step).flatMap fun st => List.range' st (min n (st + step) - st)

/-- The errors the calibration engine can signal (Python `assert` /
`NotImplementedError`). -/
inductive QuantErr where
  | notInited          -- `assert self.inited` in `UniformQuantizer.forward`
  | notCalibrated      -- `assert self.calibrated` in `quant_forward`
  | gradMissing        -- `assert raw_grad != None` in `_get_similarity`
  | metricUnknown      -- `raise NotImplementedError(f"metric ...")`
  | modeUnknown        -- `raise NotImplementedError` in `forward`
deriving DecidableEq, Repr

/-- `quantizers/uniform.py::UniformQuantizer`.  `scale` / `zero_point` hold
the flattened `[1, H, 1, 1]` (or `[1]`) parameter tensors. -/
structure UniformQuantizer where
  sym : Bool
  n_bits : ℕ
  n_levels : ℕ
  channel_wise : Bool
  drop_prob : ℝ
  inited : Bool
  training_mode : Bool
  scale : List ℝ
  zero_point : List ℝ

/-- `UniformQuantizer.__init__` (the parameter tensors are attached later by
the matmul layer's constructor). -/
def UniformQuantizer.init (n_bits : ℕ) (symmetric channel_wise : Bool) :
    UniformQuantizer :=
  { sym := symmetric
    n_bits := n_bits
    n_levels := 2 ^ (n_bits - 1)
    channel_wise := channel_wise
    drop_prob := 1
    inited := false
    training_mode := false
    scale := []
    zero_point := [] }

/-- One element of the affine quantize–dequantize round trip
(`UniformQuantizer.forward`, lines 30–36 of `uniform.py`). -/
noncomputable def uqElt (sym : Bool) (L : ℕ) (s zp v : ℝ) : ℝ :=
  let x_int : ℝ := (roundTE (v / s) : ℤ)
  if sym then
    clampR (-(L : ℝ)) ((L : ℝ) - 1) x_int * s
  else
    (clampR 0 (2 * (L : ℝ) - 1) (x_int + ((roundTE zp : ℤ) : ℝ)) -
        ((roundTE zp : ℤ) : ℝ)) * s

/-- `UniformQuantizer.forward`.  `n_bits == 32` passes through unchanged
*before* the `inited` assertion; otherwise an uninitialized quantizer
asserts.  The stochastic `drop_prob` bypass is training-only dead code here
(`drop_prob` is constructed as `1.0` and `training_mode` as `False`, and the
straight-through `round_ste` equals `torch.round` in value), so the
deterministic quantize–dequantize path is the one modelled. -/
noncomputable def UniformQuantizer.forward (q : UniformQuantizer) (x : T4) :
    Except QuantErr T4 :=
  if q.n_bits = 32 then .ok x
  else if q.inited = false then .error .notInited
  else
    .ok (map4H (fun h v =>
      let idx := if q.channel_wise then h else 0
      uqElt q.sym q.n_levels (q.scale.getD idx 0) (q.zero_point.getD idx 0) v) x)

/-- The state of an `AsymmetricallyBatchingQuantMatMul` operator (fields
accumulated along the `MinMaxQuantMatMul → PTQSLQuantMatMul →
PTQSLBatchingQuantMatMul → AsymmetricallyBatchingQuantMatMul` constructor
chain of `matmul.py`).  `raw_input` / `raw_out` / `raw_grad` model the
captured calibration record (`None` becomes the empty tensor / `none`);
`calib_size` and `parallel_eq_n` are the fields written by
`_initialize_calib_parameters`, `0` until then. -/
structure MatMulState where
  mode : String
  metric : String
  calib_batch_size : ℕ
  search_round : ℕ
  eq_n : ℕ
  head_channel_wise : Bool
  num_heads : ℕ
  input_shape_lenth : ℕ
  A_quantizer : UniformQuantizer
  B_quantizer : UniformQuantizer
  raw_input : T4 × T4
  raw_out : T4
  raw_grad : Option T4
  calibrated : Bool
  calib_size : ℕ
  parallel_eq_n : ℕ

/-- `AsymmetricallyBatchingQuantMatMul.__init__`: asymmetric per-head (or
scalar) quantizers whose `scale` / `zero_point` parameters are zero tensors
of shape `[1, num_heads, 1, …, 1]` (head-channel-wise) or `[1]`;
`calibrated` starts `False`. -/
def mkAsymMatMul (A_bit B_bit : ℕ) (mode metric : String)
    (calib_batch_size search_round eq_n : ℕ) (head_channel_wise : Bool)
    (num_heads input_shape_lenth : ℕ) : MatMulState :=
  let H := if head_channel_wise then num_heads else 1
  { mode := mode
    metric := metric
    calib_batch_size := calib_batch_size
    search_round := search_round
    eq_n := eq_n
    head_channel_wise := head_channel_wise
    num_heads := num_heads
    input_shape_lenth := input_shape_lenth
    A_quantizer :=
      { UniformQuantizer.init A_bit false head_channel_wise with
        scale := List.replicate H 0, zero_point := List.replicate H 0 }
    B_quantizer :=
      { UniformQuantizer.init B_bit false head_channel_wise with
        scale := List.replicate H 0, zero_point := List.replicate H 0 }
    raw_input := ([], [])
    raw_out := []
    raw_grad := none
    calibrated := false
    calib_size := 0
    parallel_eq_n := 0 }

/-- `quant_input_A`. -/
noncomputable def quant_input_A (m : MatMulState) (x : T4) : Except QuantErr T4 :=
  m.A_quantizer.forward x

/-- `quant_input_B`. -/
noncomputable def quant_input_B (m : MatMulState) (x : T4) : Except QuantErr T4 :=
  m.B_quantizer.forward x

/-- `MinMaxQuantMatMul.quant_forward`: asserts `calibrated` before touching
the inputs, then multiplies the two quantized operands. -/
noncomputable def quant_forward (m : MatMulState) (A B : T4) : Except QuantErr T4 :=
  if m.calibrated = false then .error .notCalibrated
  else do
    let Aq ← quant_input_A m A
    let Bq ← quant_input_B m B
    .ok (bmm Aq Bq)

/-- `MinMaxQuantMatMul.u_perturbation_forward`. -/
noncomputable def u_perturbation_forward (A B : T4) : T4 :=
  map4 (fun v => v + 1e-6) (bmm A B)

/-- `MinMaxQuantMatMul.d_perturbation_forward`. -/
noncomputable def d_perturbation_forward (A B : T4) : T4 :=
  map4 (fun v => v - 1e-6) (bmm A B)

/-- `MinMaxQuantMatMul.forward`: dispatch on `mode`. -/
noncomputable def mm_forward (m : MatMulState) (A B : T4) : Except QuantErr T4 :=
  if m.mode = "raw" then .ok (bmm A B)
  else if m.mode = "quant_forward" then quant_forward m A B
  else if m.mode = "u_perturbation" then .ok (u_perturbation_forward A B)
  else if m.mode = "d_perturbation" then .ok (d_perturbation_forward A B)
  else .error .modeUnknown

/-- The gradient normalization applied by `_get_similarity` (line 112 of
`matmul.py`):  `raw_grad = raw_grad.abs() * sqrt(raw_grad.numel() /
raw_grad.pow(2).sum())`. -/
noncomputable def normalizeGrad (g : T4) : T4 :=
  map4 (fun v => |v| * Real.sqrt ((numel4 g : ℝ) / sumSq4 g)) g

/-- `PTQSLQuantMatMul._get_similarity`.  `tensor_raw` and `tensor_sim` have
the same shape (the engine's broadcasting over the candidate axis is
rendered by applying this per candidate slice); `raw_grad` holds the same
number of elements as `tensor_raw` and is reshaped to it, which is the
identity in this layout. -/
noncomputable def get_similarity (tensor_raw tensor_sim : T4) (metric : String)
    (raw_grad : Option T4) : Except QuantErr T4 :=
  if metric = "mae" then .ok (zip4 (fun r s => -|r - s|) tensor_raw tensor_sim)
  else if metric = "mse" then .ok (zip4 (fun r s => -(r - s) ^ 2) tensor_raw tensor_sim)
  else if metric = "hessian" ∨ metric = "jacobian" ∨ metric = "hessian_new" then
    match raw_grad with
    | none => .error .gradMissing
    | some g =>
      let gn := normalizeGrad g
      if metric = "hessian" then
        .ok (zip4With3 (fun r s gv => -(gv * (r - s)) ^ 2) tensor_raw tensor_sim gn)
      else if metric = "jacobian" then
        .ok (zip4With3 (fun r s gv => -(|gv| * |r - s|)) tensor_raw tensor_sim gn)
      else
        .ok (zip4With3 (fun r s gv => -(|gv| * (r - s) ^ 2)) tensor_raw tensor_sim gn)
  else .error .metricUnknown

/-- The percentile levels built at line 244 of `matmul.py`:
`[l + (r - l) * (i / (eq_n - 1)) ** k for i in range(eq_n)] + [1.0]`
(`**` on floats is the real power `rpow`). -/
noncomputable def pctLevels (eq_n : ℕ) (l r k : ℝ) : List ℝ :=
  ((List.range eq_n).map fun i : ℕ =>
    l + (r - l) * (((i : ℝ) / ((eq_n : ℝ) - 1)) ^ k)) ++ [1]

/-- `x.transpose(0, 1)` on a `[batch, heads, ·, ·]` tensor: regroup the data
per head.  The head count is read off the first sample (rectangular data). -/
def transposeHeads (x : T4) : T4 :=
  (List.range (x.headD []).length).map fun h => x.map fun sample => sample.getD h []

/-- `AsymmetricallyBatchingQuantMatMul.calculate_percentile_candidates`:
per level `p`, the `p`-quantile (uppers) and `(1-p)`-quantile (lowers) of
the flattened input — per head when `head_channel_wise`, over everything
otherwise.  Result rows are the `eq_n + 1` levels, columns the head slots.
The CUDA out-of-memory retry (`mini_batch_size` doubling) is a recovery
path for a device limit that does not exist in this model; the successful
`mini_batch_size = 1` computation is the one modelled (`mean(dim=-1)` over
that singleton mini-batch axis is the identity). -/
noncomputable def calculate_percentile_candidates (m : MatMulState) (x : T4)
    (l r k : ℝ) : List (List ℝ) × List (List ℝ) :=
  let pct := pctLevels m.eq_n l r k
  let groups : List (List ℝ) :=
    if m.head_channel_wise then
      (transposeHeads x).map fun perHead => (perHead.map matFlat).flatten
    else [flat4 x]
  ((pct.map fun p => groups.map fun g => quantileLinear g p),
   (pct.map (fun p => groups.map fun g => quantileLinear g (1 - p))))

/-- The memory-derived initial parallelism bound of
`_initialize_calib_parameters` (line 143):
`max(int((memory / 4) // numel), 1)` with `memory` half the device's total
memory and `numel` the byte-weighted working-set size
`4·|A| + 4·|B| + 8·|out-chunk|`. -/
def initParallel (m : MatMulState) (totalMemory : ℕ) : ℕ :=
  let calib_size := m.raw_input.1.length
  let memory := totalMemory / 2
  let numel := 4 * numel4 (m.raw_input.1.take calib_size) +
      4 * numel4 (m.raw_input.2.take calib_size) +
      8 * numel4 (m.raw_out.take m.calib_batch_size)
  max (memory / 4 / numel) 1

/-- `PTQSLBatchingQuantMatMul._initialize_calib_parameters`.  The CUDA
total-memory query is the explicit `totalMemory` argument; the initial
parallelism bound `initParallel` is then adjusted by the two ceiling
divisions of line 144:
`parallel_eq_n = ceil(eq_n / ceil(eq_n / parallel_eq_n))`. -/
def initialize_calib_parameters (m : MatMulState) (totalMemory : ℕ) : MatMulState :=
  { m with
    calib_size := m.raw_input.1.length
    parallel_eq_n :=
      ceilDivNat m.eq_n (ceilDivNat m.eq_n (initParallel m totalMemory)) }

/-- Head-slot count of the candidate grids and of the per-head similarity
reduction: `num_heads` columns when head-channel-wise, a single column
otherwise. -/
def HcolsOf (m : MatMulState) : ℕ := if m.head_channel_wise then m.num_heads else 1

/-- `(uppers - lowers) / (2 * n_levels - 1)`, elementwise over the grid. -/
noncomputable def scaleCandsOf (uppers lowers : List (List ℝ)) (L : ℕ) :
    List (List ℝ) :=
  List.zipWith (List.zipWith fun u lo => (u - lo) / (2 * (L : ℝ) - 1)) uppers lowers

/-- `-(lowers / scales).round()`, elementwise over the grid. -/
noncomputable def zpCandsOf (lowers scales : List (List ℝ)) : List (List ℝ) :=
  List.zipWith (List.zipWith fun lo s => -((roundTE (lo / s) : ℤ) : ℝ)) lowers scales

/-- `torch.gather(cands, dim=0, index=best_index)`: per head slot `h`, pick
row `idxs[h]`, column `h` — a single `[1, 1, H, 1, …]` row. -/
def gatherRow (cands : List (List ℝ)) (idxs : List ℕ) : List ℝ :=
  idxs.enum.map fun hi => (cands.getD hi.2 []).getD hi.1 0

/-- The inline asymmetric fake-quantization of the searched operand with one
candidate row (lines 184–185 / 222–223 of `matmul.py`): the candidate
`zero_point` is already rounded and is *not* re-rounded here. -/
noncomputable def candQuant (hcw : Bool) (L : ℕ) (scaleRow zpRow : List ℝ)
    (x : T4) : T4 :=
  map4H (fun h v =>
    let idx := if hcw then h else 0
    let s := scaleRow.getD idx 0
    let z := zpRow.getD idx 0
    (clampR 0 (2 * (L : ℝ) - 1) (((roundTE (v / s) : ℤ) : ℝ) + z) - z) * s) x

/-- The similarity reduction of lines 188–192 / 226–230: mean over the
non-head trailing dimensions (per sample and head when head-channel-wise,
per sample otherwise), then sum over the chunk's sample axis — one value
per head slot. -/
noncomputable def simReduce (hcw : Bool) (H : ℕ) (sim : T4) : List ℝ :=
  if hcw then
    (List.range H).map fun h =>
      (sim.map fun sample => meanR (matFlat (sample.getD h []))).sum
  else
    [(sim.map fun sample => meanR ((sample.map matFlat).flatten)).sum]

/-- `x[b_st:b_ed]` on the sample axis. -/
def sliceT4 (x : T4) (b_st b_ed : ℕ) : T4 := (x.drop b_st).take (b_ed - b_st)

/-- One candidate's contribution in `_search_best_A_scale`: quantize the
chunk of `A` with candidate row `p`, multiply against the (already
quantized) `B` chunk, score against the float reference with
`_get_similarity`, and reduce to one similarity per head slot. -/
noncomputable def candScoreA (m : MatMulState) (Ach Bsim rawOutCh : T4)
    (gradCh : Option T4) (scCands zpCands : List (List ℝ)) (p : ℕ) :
    Except QuantErr (List ℝ) := do
  let Asim := candQuant m.head_channel_wise m.A_quantizer.n_levels
      (scCands.getD p []) (zpCands.getD p []) Ach
  let outSim := bmm Asim Bsim
  let sim ← get_similarity rawOutCh outSim m.metric gradCh
  pure (simReduce m.head_channel_wise (HcolsOf m) sim)

/-- The body of `_search_best_A_scale`'s calibration-chunk loop for the
chunk starting at `b_st`: fix the chunk's tensors, quantize the *other*
side `B` with its current quantizer (`self.quant_input_B(B)`), then walk
the candidate grid in groups of `parallel_eq_n` — one similarity row per
candidate, for the first `eq_n` candidates. -/
noncomputable def chunkScoresA (m : MatMulState) (scCands zpCands : List (List ℝ))
    (b_st : ℕ) : Except QuantErr (List (List ℝ)) := do
  let b_ed := min m.calib_size (b_st + m.calib_batch_size)
  let Ach := sliceT4 m.raw_input.1 b_st b_ed
  let Bch := sliceT4 m.raw_input.2 b_st b_ed
  let Bsim ← quant_input_B m Bch
  let rawOutCh := sliceT4 m.raw_out b_st b_ed
  let gradCh := m.raw_grad.map fun g => sliceT4 g b_st b_ed
  (candIdxs m.eq_n m.parallel_eq_n).mapM
    (candScoreA m Ach Bsim rawOutCh gradCh scCands zpCands)

/-- Elementwise sum of two `candidates × heads` similarity tables
(the `torch.cat(..., dim=1).sum(dim=1)` accumulation across chunks). -/
noncomputable def addRows (x y : List (List ℝ)) : List (List ℝ) :=
  List.zipWith (List.zipWith (· + ·)) x y

/-- `AsymmetricallyBatchingQuantMatMul._search_best_A_scale`: accumulate
per-candidate similarities over all calibration chunks, take the argmax per
head slot, and write the winning scale / zero-point rows into
`A_quantizer`'s parameters.  Returns the updated state and the per-head
best index. -/
noncomputable def search_best_A_scale (m : MatMulState)
    (scCands zpCands : List (List ℝ)) :
    Except QuantErr (MatMulState × List ℕ) := do
  let chunks ← (chunkList 0 m.calib_size m.calib_batch_size).mapM
      (chunkScoresA m scCands zpCands)
  let batchSims := chunks.foldl addRows
      (List.replicate m.eq_n (List.replicate (HcolsOf m) 0))
  let bestIdx := (List.range (HcolsOf m)).map fun h =>
      argmaxIdx (batchSims.map fun row => row.getD h 0)
  .ok ({ m with A_quantizer :=
          { m.A_quantizer with
            scale := gatherRow scCands bestIdx
            zero_point := gatherRow zpCands bestIdx } },
       bestIdx)

/-- One candidate's contribution in `_search_best_B_scale` (mirror image of
`candScoreA`, quantizing `B` with the candidate and using the current
quantization of `A`). -/
noncomputable def candScoreB (m : MatMulState) (Asim Bch rawOutCh : T4)
    (gradCh : Option T4) (scCands zpCands : List (List ℝ)) (p : ℕ) :
    Except QuantErr (List ℝ) := do
  let Bsim := candQuant m.head_channel_wise m.B_quantizer.n_levels
      (scCands.getD p []) (zpCands.getD p []) Bch
  let outSim := bmm Asim Bsim
  let sim ← get_similarity rawOutCh outSim m.metric gradCh
  pure (simReduce m.head_channel_wise (HcolsOf m) sim)

/-- The chunk-loop body of `_search_best_B_scale`: the other side `A` is
quantized with its current quantizer (`self.quant_input_A(A)`). -/
noncomputable def chunkScoresB (m : MatMulState) (scCands zpCands : List (List ℝ))
    (b_st : ℕ) : Except QuantErr (List (List ℝ)) := do
  let b_ed := min m.calib_size (b_st + m.calib_batch_size)
  let Ach := sliceT4 m.raw_input.1 b_st b_ed
  let Bch := sliceT4 m.raw_input.2 b_st b_ed
  let Asim ← quant_input_A m Ach
  let rawOutCh := sliceT4 m.raw_out b_st b_ed
  let gradCh := m.raw_grad.map fun g => sliceT4 g b_st b_ed
  (candIdxs m.eq_n m.parallel_eq_n).mapM
    (candScoreB m Asim Bch rawOutCh gradCh scCands zpCands)

/-- `AsymmetricallyBatchingQuantMatMul._search_best_B_scale`. -/
noncomputable def search_best_B_scale (m : MatMulState)
    (scCands zpCands : List (List ℝ)) :
    Except QuantErr (MatMulState × List ℕ) := do
  let chunks ← (chunkList 0 m.calib_size m.calib_batch_size).mapM
      (chunkScoresB m scCands zpCands)
  let batchSims := chunks.foldl addRows
      (List.replicate m.eq_n (List.replicate (HcolsOf m) 0))
  let bestIdx := (List.range (HcolsOf m)).map fun h =>
      argmaxIdx (batchSims.map fun row => row.getD h 0)
  .ok ({ m with B_quantizer :=
          { m.B_quantizer with
            scale := gatherRow scCands bestIdx
            zero_point := gatherRow zpCands bestIdx } },
       bestIdx)

/-- The `A`-side percentile grids of `hyperparameter_searching` (line 264):
`calculate_percentile_candidates(self.raw_input[0], l=0.999, r=0.99999,
k=0.1)`. -/
noncomputable def A_percentiles (m : MatMulState) : List (List ℝ) × List (List ℝ) :=
  calculate_percentile_candidates m m.raw_input.1 0.999 0.99999 0.1

/-- The `B`-side percentile grids (line 265). -/
noncomputable def B_percentiles (m : MatMulState) : List (List ℝ) × List (List ℝ) :=
  calculate_percentile_candidates m m.raw_input.2 0.999 0.99999 0.1

/-- `A_scale_candidates` (line 266). -/
noncomputable def A_scale_cands (m : MatMulState) : List (List ℝ) :=
  scaleCandsOf (A_percentiles m).1 (A_percentiles m).2 m.A_quantizer.n_levels

/-- `A_zero_point_candidates` (line 267). -/
noncomputable def A_zp_cands (m : MatMulState) : List (List ℝ) :=
  zpCandsOf (A_percentiles m).2 (A_scale_cands m)

/-- `B_scale_candidates` (line 268). -/
noncomputable def B_scale_cands (m : MatMulState) : List (List ℝ) :=
  scaleCandsOf (B_percentiles m).1 (B_percentiles m).2 m.B_quantizer.n_levels

/-- `B_zero_point_candidates` (line 269). -/
noncomputable def B_zp_cands (m : MatMulState) : List (List ℝ) :=
  zpCandsOf (B_percentiles m).2 (B_scale_cands m)

/-- The state of the operator right before the first per-side search: lines
263–275 of `hyperparameter_searching`.  `_initialize_calib_parameters` has
run, the candidate grids are computed, the *second-to-last* (`[-2]`)
candidate row is copied into both quantizers' `scale` / `zero_point`
parameters, and both `inited` flags are set. -/
noncomputable def seededState (m : MatMulState) (totalMemory : ℕ) : MatMulState :=
  let m1 := initialize_calib_parameters m totalMemory
  let Asc := A_scale_cands m1
  let Azp := A_zp_cands m1
  let Bsc := B_scale_cands m1
  let Bzp := B_zp_cands m1
  { m1 with
    A_quantizer :=
      { m1.A_quantizer with
        scale := Asc.getD (Asc.length - 2) []
        zero_point := Azp.getD (Azp.length - 2) []
        inited := true }
    B_quantizer :=
      { m1.B_quantizer with
        scale := Bsc.getD (Bsc.length - 2) []
        zero_point := Bzp.getD (Bzp.length - 2) []
        inited := true } }

/-- One pass of the inner `for ee in range(2)` refinement loop on the `A`
side (lines 281–290).  `ee % 2 == 0` holds the *upper* percentile endpoint
fixed at the current best index (a gathered single row, broadcast against
the full grid of lowers); otherwise the lower endpoint is held and the
uppers sweep.  Scale / zero-point candidates are re-derived and the best
candidate re-searched. -/
noncomputable def refinePhaseA (Aup Alo : List (List ℝ)) (ee : ℕ)
    (st : MatMulState × List ℕ) : Except QuantErr (MatMulState × List ℕ) :=
  let up := if ee % 2 = 0 then List.replicate Alo.length (gatherRow Aup st.2) else Aup
  let lo := if ee % 2 = 0 then Alo else List.replicate Aup.length (gatherRow Alo st.2)
  let sc := scaleCandsOf up lo st.1.A_quantizer.n_levels
  let zp := zpCandsOf lo sc
  search_best_A_scale st.1 sc zp

/-- The `B`-side refinement pass (lines 291–301). -/
noncomputable def refinePhaseB (Bup Blo : List (List ℝ)) (ee : ℕ)
    (st : MatMulState × List ℕ) : Except QuantErr (MatMulState × List ℕ) :=
  let up := if ee % 2 = 0 then List.replicate Blo.length (gatherRow Bup st.2) else Bup
  let lo := if ee % 2 = 0 then Blo else List.replicate Bup.length (gatherRow Blo st.2)
  let sc := scaleCandsOf up lo st.1.B_quantizer.n_levels
  let zp := zpCandsOf lo sc
  search_best_B_scale st.1 sc zp

/-- The `A`-side block of one refinement round (lines 280–290): skipped
entirely when `A_quantizer.n_bits` is not below 32, otherwise the two `ee`
passes of the inner `for ee in range(2)` loop. -/
noncomputable def refineBlockA (Aup Alo : List (List ℝ))
    (st : MatMulState × List ℕ) : Except QuantErr (MatMulState × List ℕ) :=
  if st.1.A_quantizer.n_bits < 32 then
    (List.range 2).foldlM (fun s ee => refinePhaseA Aup Alo ee s) st
  else pure st

/-- The `B`-side block of one refinement round (lines 291–301). -/
noncomputable def refineBlockB (Bup Blo : List (List ℝ))
    (st : MatMulState × List ℕ) : Except QuantErr (MatMulState × List ℕ) :=
  if st.1.B_quantizer.n_bits < 32 then
    (List.range 2).foldlM (fun s ee => refinePhaseB Bup Blo ee s) st
  else pure st

/-- One iteration of `for e in range(self.search_round)`: the `A` block
(guarded by `A_quantizer.n_bits < 32`, two `ee` passes), then the `B` block
(guarded by `B_quantizer.n_bits < 32`) on the `A`-updated state. -/
noncomputable def refineRound (Aup Alo Bup Blo : List (List ℝ))
    (st : MatMulState × List ℕ × List ℕ) :
    Except QuantErr (MatMulState × List ℕ × List ℕ) := do
  let stA ← refineBlockA Aup Alo (st.1, st.2.1)
  let stB ← refineBlockB Bup Blo (stA.1, st.2.2)
  pure (stB.1, stA.2, stB.2)

/-- Everything `hyperparameter_searching` does after the seeding of lines
263–275: the initial per-side searches (lines 277–278), `rounds` refinement
rounds (279–301), then the `calibrated` latch and the release of the raw
calibration tensors (303–304; `del` is modelled by resetting them to the
constructor's empty values).  All candidate grids are those computed from
the operator's raw statistics `s0`. -/
noncomputable def postSeedSearch (s0 : MatMulState) (rounds : ℕ) :
    Except QuantErr MatMulState := do
  let (s1, Ai) ← search_best_A_scale s0 (A_scale_cands s0) (A_zp_cands s0)
  let (s2, Bi) ← search_best_B_scale s1 (B_scale_cands s0) (B_zp_cands s0)
  let st ← (List.range rounds).foldlM
      (fun st _ => refineRound (A_percentiles s0).1 (A_percentiles s0).2
        (B_percentiles s0).1 (B_percentiles s0).2 st)
      (s2, Ai, Bi)
  pure { st.1 with
    calibrated := true
    raw_input := ([], [])
    raw_out := []
    raw_grad := none }

/-- `AsymmetricallyBatchingQuantMatMul.hyperparameter_searching`: seed the
quantizers with the second-to-last candidate (lines 263–275, `seededState`),
then search and refine (`postSeedSearch`). -/
noncomputable def hyperparameter_searching (m : MatMulState) (totalMemory : ℕ) :
    Except QuantErr MatMulState :=
  postSeedSearch (seededState m totalMemory) m.search_round

/-- What the orchestrator's forward hooks capture for one operator while
re-running the calibration set: the concatenated input pair and output
(`raw_input`, `raw_out`).  The backward `grad_hook` exists in
`calibrator.py` but is never registered by `batching_quant_calib`, so no
gradient is captured. -/
structure Capture where
  A : T4
  B : T4
  out : T4

/-- A module seen by `model.named_modules()`: either a calibration-eligible
quantized matmul (it has a `metric` attribute), or any other submodule,
which may or may not carry a `mode` attribute. -/
inductive CalModule where
  | mm (s : MatMulState)
  | other (mode : Option String)

/-- The `mode` attribute of a module, `none` when it has no such attribute. -/
def moduleMode : CalModule → Option String
  | .mm s => some s.mode
  | .other mo => mo

/-- Install one operator's captured tensors (the
`module.raw_out = torch.cat(...)` / `module.raw_input = [...]` block of
`batching_quant_calib`). -/
def installCapture (cap : Capture) (s : MatMulState) : MatMulState :=
  { s with raw_input := (cap.A, cap.B), raw_out := cap.out }

/-- One iteration of the per-operator calibration loop: skip modules without
a `metric` attribute or already calibrated; otherwise capture and run
`hyperparameter_searching`.  An exception aborts the whole run. -/
noncomputable def calibModule (totalMemory : ℕ) (cap : Capture) :
    CalModule → Except QuantErr CalModule
  | .mm s =>
      if s.calibrated = false then
        (hyperparameter_searching (installCapture cap s) totalMemory).map .mm
      else .ok (.mm s)
  | .other mo => .ok (.other mo)

/-- The sequential per-operator calibration pass over the module list
(operator `i` gets capture data `caps i`). -/
noncomputable def calibSeq (totalMemory : ℕ) (caps : ℕ → Capture) :
    ℕ → List CalModule → Except QuantErr (List CalModule)
  | _, [] => .ok []
  | i, mod :: rest => do
      let mod' ← calibModule totalMemory (caps i) mod
      let rest' ← calibSeq totalMemory caps (i + 1) rest
      pure (mod' :: rest')

/-- The final global pass of `batching_quant_calib`: every module that has a
`mode` attribute is put into `quant_forward` mode. -/
def setQuantForwardAll (ms : List CalModule) : List CalModule :=
  ms.map fun mod =>
    match mod with
    | .mm s => .mm { s with mode := "quant_forward" }
    | .other (some _) => .other (some "quant_forward")
    | .other none => .other none

/-- `QuantCalibrator.batching_quant_calib`: the initial no-hook float pass
touches no module state (its softmax outputs are collected into a local
list the function never reads again), then each still-uncalibrated operator
is captured and searched in sequence, and finally all modes are flipped in
one global pass. -/
noncomputable def batching_quant_calib (totalMemory : ℕ) (caps : ℕ → Capture)
    (ms : List CalModule) : Except QuantErr (List CalModule) :=
  (calibSeq totalMemory caps 0 ms).map setQuantForwardAll

/-- `calibrated` of a per-side search result; `d` is returned when the
search aborted with an exception (no state escapes then). -/
def calibOfSearch (r : Except QuantErr (MatMulState × List ℕ)) (d : Bool) : Bool :=
  match r with
  | .ok p => p.1.calibrated
  | .error _ => d

/-- `calibrated` of a `hyperparameter_searching` result, `d` on abort. -/
def calibOfResult (r : Except QuantErr MatMulState) (d : Bool) : Bool :=
  match r with
  | .ok s => s.calibrated
  | .error _ => d

/-- `mode` of a per-module calibration step's result, `d` on abort. -/
def modeOfModuleResult (r : Except QuantErr CalModule) (d : Option String) :
    Option String :=
  match r with
  | .ok mod => moduleMode mod
  | .error _ => d

/-- The module modes after a calibration pass, `d` on abort. -/
def modesOfSeqResult (r : Except QuantErr (List CalModule))
    (d : List (Option String)) : List (Option String) :=
  match r with
  | .ok l => l.map moduleMode
  | .error _ => d

/-- The `jacobian` score exactly as the specification words it: the
elementwise `-(|G| * |R - S|)` with the gradient used as captured, no
normalization.  Stated only to be compared with the code's
`get_similarity`. -/
def jacobianClaimSpec (R S G : T4) : T4 :=
  zip4With3 (fun r s g => -(|g| * |r - s|)) R S G

/-! ### Concrete instances used by counterexamples and witnesses -/

/-- A one-element `[1, 1, 1, 1]` tensor holding `0`. -/
def exT1 : T4 := [[[[0]]]]

/-- Reference / simulated / gradient tensors for the similarity scorer. -/
def exR1 : T4 := [[[[1]]]]

/-- See `exR1`. -/
def exS1 : T4 := [[[[0]]]]

/-- A gradient tensor whose mean-square magnitude is `4`, so that the
normalization factor `sqrt(numel/sum G²) = 1/2` is not the identity. -/
def exG1 : T4 := [[[[2]]]]

/-- An operator with `eq_n = 10` whose raw tensors give the byte-weighted
working set `numel = 4 + 4 + 8 = 16`; with `totalMemory = 512` the memory
bound works out to `initParallel = 4`, which does not divide `eq_n`. -/
def exC2 : MatMulState :=
  { mkAsymMatMul 8 8 "raw" "mse" 1 1 10 false 1 4 with
    raw_input := (exT1, exT1), raw_out := exT1 }

/-- A `[1, 1, 2, 1]` tensor holding `0` and `100000`; its `0.99999` and
`0.00001` linear-interpolation quantiles are `99999` and `1`. -/
def exT3 : T4 := [[[[0], [100000]]]]

/-- A freshly captured 1-bit asymmetric operator with `eq_n = 2` on the data
`exT3`: the seeded (second-to-last-candidate) quantizers have
`scale = 99998`, `zero_point = 0`, which visibly distorts the raw `B`. -/
def exC3 : MatMulState :=
  { mkAsymMatMul 1 1 "raw" "mse" 2 1 2 false 1 4 with
    raw_input := (exT3, exT3), raw_out := exT3 }

/-- The upper-percentile grid the engine computes for `exC3`'s `B` side:
one quantile of the flattened data `[0, 100000]` per level. -/
noncomputable def exC3upB : List (List ℝ) :=
  (pctLevels 2 0.999 0.99999 0.1).map fun p => [quantileLinear [(0 : ℝ), 100000] p]

/-- The matching lower-percentile grid (the `1 - p` quantiles). -/
noncomputable def exC3loB : List (List ℝ) :=
  (pctLevels 2 0.999 0.99999 0.1).map fun p =>
    [quantileLinear [(0 : ℝ), 100000] (1 - p)]

/-- A 32-bit quantizer that was never initialized. -/
def exQ32 : UniformQuantizer := UniformQuantizer.init 32 false false

/-- An uninitialized 8-bit quantizer. -/
def exQ8 : UniformQuantizer := UniformQuantizer.init 8 false false

/-- An arbitrary input tensor. -/
def exX5 : T4 := [[[[3]]]]

/-- An operator ready for a per-side search: `mse` metric, both quantizers
initialized, `eq_n = parallel_eq_n = 1`, empty calibration set. -/
def exC10 : MatMulState :=
  let base := mkAsymMatMul 8 8 "raw" "mse" 1 1 1 false 1 4
  { base with
    A_quantizer := { base.A_quantizer with inited := true }
    B_quantizer := { base.B_quantizer with inited := true }
    parallel_eq_n := 1 }

/-- A fresh operator with `eq_n = 2`, A-side at full precision (32 bits). -/
def exC8 : MatMulState := mkAsymMatMul 32 8 "raw" "mse" 1 1 2 false 1 4

/-- A fresh operator with `eq_n = 2` (used to discharge `2 ≤ eq_n`). -/
def exC7 : MatMulState := mkAsymMatMul 8 8 "raw" "mse" 1 1 2 false 1 4

/-! ### Shared lemmas -/

theorem ceilDivNat_le_iff {a b c : ℕ} (hb : 0 < b) :
    ceilDivNat a b ≤ c ↔ a ≤ b * c := by
  have h : ceilDivNat a b = a ⌈/⌉ b := (Nat.ceilDiv_eq_add_pred_div a b).symm
  rw [h]
  exact ceilDiv_le_iff_le_mul hb

theorem ceilDivNat_pos {a b : ℕ} (ha : 1 ≤ a) (hb : 0 < b) :
    1 ≤ ceilDivNat a b := by
  rcases Nat.eq_zero_or_pos (ceilDivNat a b) with h | h
  · have h2 := (ceilDivNat_le_iff hb).mp (le_of_eq h)
    rw [Nat.mul_zero] at h2
    omega
  · exact h

/-- `ceil(n / ceil(n / p))` is at most `p`, positive, and yields exactly the
same number of groups (of possibly smaller size) as `p` would. -/
theorem ceil_adjust (n p : ℕ) (hn : 1 ≤ n) (hp : 1 ≤ p) :
    ceilDivNat n (ceilDivNat n p) ≤ p ∧
    1 ≤ ceilDivNat n (ceilDivNat n p) ∧
    ceilDivNat n (ceilDivNat n (ceilDivNat n p)) = ceilDivNat n p := by
  set q := ceilDivNat n p with hq
  have hq1 : 1 ≤ q := ceilDivNat_pos hn hp
  have hnq : n ≤ p * q := (ceilDivNat_le_iff hp).mp le_rfl
  set r := ceilDivNat n q with hr
  have hr1 : 1 ≤ r := ceilDivNat_pos hn hq1
  have hnr : n ≤ q * r := (ceilDivNat_le_iff hq1).mp le_rfl
  have hrp : r ≤ p := (ceilDivNat_le_iff hq1).mpr (by rwa [Nat.mul_comm])
  refine ⟨hrp, hr1, le_antisymm ?_ ?_⟩
  · exact (ceilDivNat_le_iff hr1).mpr (by rwa [Nat.mul_comm])
  · by_contra hcon
    push_neg at hcon
    have h1 : ceilDivNat n r ≤ q - 1 := by omega
    have h2 : n ≤ r * (q - 1) := (ceilDivNat_le_iff hr1).mp h1
    have h3 : n ≤ p * (q - 1) :=
      le_trans h2 (Nat.mul_le_mul_right _ hrp)
    have h4 : q ≤ q - 1 := (ceilDivNat_le_iff hp).mpr h3
    omega

/-! ### C2 — memory-budget parallelism -/

/-- C2 (amended): for every operator with `eq_n ≥ 1` and any total device
memory, the parallelism chosen by `_initialize_calib_parameters` is at most
the memory-derived bound `initParallel` (which is at least 1), is itself at
least 1, and produces exactly as many candidate groups as the bound would
(`ceil(eq_n/chosen) = ceil(eq_n/bound)`) — but it need not divide `eq_n`,
so the last group may be partial. -/
theorem C2_parallel_bound (m : MatMulState) (totalMemory : ℕ)
    (hn : 1 ≤ m.eq_n) :
    (initialize_calib_parameters m totalMemory).parallel_eq_n ≤
        initParallel m totalMemory ∧
    1 ≤ (initialize_calib_parameters m totalMemory).parallel_eq_n ∧
    ceilDivNat m.eq_n
        (initialize_calib_parameters m totalMemory).parallel_eq_n =
      ceilDivNat m.eq_n (initParallel m totalMemory) := by
  have hp : 1 ≤ initParallel m totalMemory := by
    unfold initParallel
    exact le_max_right _ 1
  have hfield : (initialize_calib_parameters m totalMemory).parallel_eq_n =
      ceilDivNat m.eq_n (ceilDivNat m.eq_n (initParallel m totalMemory)) := rfl
  rw [hfield]
  exact ceil_adjust m.eq_n (initParallel m totalMemory) hn hp

/-- C2 (witness for `C2_parallel_bound`). -/
theorem C2_parallel_bound_witness :
    1 ≤ exC2.eq_n ∧
    ((initialize_calib_parameters exC2 512).parallel_eq_n ≤
        initParallel exC2 512 ∧
     1 ≤ (initialize_calib_parameters exC2 512).parallel_eq_n ∧
     ceilDivNat exC2.eq_n
         (initialize_calib_parameters exC2 512).parallel_eq_n =
       ceilDivNat exC2.eq_n (initParallel exC2 512)) :=
  ⟨by decide, C2_parallel_bound exC2 512 (by decide)⟩

/-- C2 (counterexample to the claim as stated): with `eq_n = 10` and
memory bound `initParallel = 4 ≥ 1`, the chosen parallelism is `4`, which
does not divide `eq_n = 10` — the candidate-group loop
`range(0, 10, 4)` leaves a partial final group of size 2. -/
theorem C2_counterexample :
    exC2.eq_n = 10 ∧
    initParallel exC2 512 = 4 ∧
    (initialize_calib_parameters exC2 512).parallel_eq_n = 4 ∧
    ¬ ((initialize_calib_parameters exC2 512).parallel_eq_n ∣ exC2.eq_n) ∧
    candIdxs exC2.eq_n (initialize_calib_parameters exC2 512).parallel_eq_n =
      [0, 1, 2, 3, 4, 5, 6, 7, 8, 9] := by
  have h4 : (initialize_calib_parameters exC2 512).parallel_eq_n = 4 := by decide
  have h10 : exC2.eq_n = 10 := rfl
  refine ⟨rfl, by decide, h4, by decide, ?_⟩
  rw [h4, h10]
  rw [candIdxs, chunkList, chunkList, chunkList, chunkList]
  norm_num
  decide

/-! ### C5 — quantizer initialization assertion -/

/-- C5 (amended): for every input tensor and every bit-width *other than
32*, invoking the affine quantizer's forward while `inited` is false fails
with the not-initialized assertion error.  (At 32 bits the forward is the
identity pass-through and returns before the assertion.) -/
theorem C5_forward_requires_init (q : UniformQuantizer) (x : T4)
    (h32 : q.n_bits ≠ 32) (hin : q.inited = false) :
    q.forward x = .error .notInited := by
  unfold UniformQuantizer.forward
  rw [if_neg h32, hin]
  simp

/-- C5 (witness for `C5_forward_requires_init`). -/
theorem C5_forward_requires_init_witness :
    exQ8.n_bits ≠ 32 ∧ exQ8.inited = false ∧
    exQ8.forward exX5 = .error .notInited :=
  ⟨by decide, rfl, C5_forward_requires_init exQ8 exX5 (by decide) rfl⟩

/-- C5 (counterexample to the claim as stated): a 32-bit quantizer that was
never initialized does *not* fail — its forward returns the input
untouched. -/
theorem C5_counterexample :
    exQ32.inited = false ∧ exQ32.n_bits = 32 ∧
    exQ32.forward exX5 = .ok exX5 := by
  refine ⟨rfl, rfl, ?_⟩
  unfold UniformQuantizer.forward
  simp [exQ32, UniformQuantizer.init]

/-! ### C9 — percentile candidate levels -/

/-- C9: for every `eq_n ≥ 2` and parameters `l < r ≤ 1`, `0 < k`, the
candidate generator's level sequence has exactly `eq_n + 1` entries, entry
`i < eq_n` being `l + (r-l) * (i/(eq_n-1))^k` and the final entry an exact
`1.0`; consecutive entries are non-decreasing. -/
theorem pctLevels_length (eq_n : ℕ) (l r k : ℝ) :
    (pctLevels eq_n l r k).length = eq_n + 1 := by
  unfold pctLevels
  rw [List.length_append, List.length_map, List.length_range]
  rfl

theorem pctLevels_getD_lt (eq_n : ℕ) (l r k : ℝ) {i : ℕ} (hi : i < eq_n) :
    (pctLevels eq_n l r k).getD i 0 =
      l + (r - l) * (((i : ℝ) / ((eq_n : ℝ) - 1)) ^ k) := by
  unfold pctLevels
  rw [List.getD_append _ _ _ _ (by rw [List.length_map, List.length_range]; exact hi)]
  rw [List.getD_eq_getElem _ _ (by rw [List.length_map, List.length_range]; exact hi)]
  rw [List.getElem_map, List.getElem_range]

theorem pctLevels_getD_last (eq_n : ℕ) (l r k : ℝ) :
    (pctLevels eq_n l r k).getD eq_n 0 = 1 := by
  unfold pctLevels
  rw [List.getD_append_right _ _ _ _
    (le_of_eq (by rw [List.length_map, List.length_range]))]
  rw [List.length_map, List.length_range, Nat.sub_self]
  rfl

/-- The level used by the second-to-last (seed) candidate row: for
`eq_n ≥ 2` and `k ≠ 0`, entry `eq_n - 1` of the level grid is exactly the
upper percentile bound `r`. -/
theorem pctLevels_getD_seed (eq_n : ℕ) (l r k : ℝ) (hn : 2 ≤ eq_n) :
    (pctLevels eq_n l r k).getD (eq_n - 1) 0 = r := by
  rw [pctLevels_getD_lt eq_n l r k (by omega)]
  have hcast : ((eq_n - 1 : ℕ) : ℝ) = (eq_n : ℝ) - 1 := by
    have h1 : 1 ≤ eq_n := by omega
    push_cast [Nat.cast_sub h1]
    ring
  have hden : ((eq_n : ℝ) - 1) ≠ 0 := by
    have h2 : (2 : ℝ) ≤ (eq_n : ℝ) := by exact_mod_cast hn
    intro hc
    linarith
  rw [hcast, div_self hden, Real.one_rpow]
  ring

theorem C9_percentile_grid (eq_n : ℕ) (l r k : ℝ) (hn : 2 ≤ eq_n)
    (hlr : l < r) (hr1 : r ≤ 1) (hk : 0 < k) :
    (pctLevels eq_n l r k).length = eq_n + 1 ∧
    (∀ i, i < eq_n → (pctLevels eq_n l r k).getD i 0 =
        l + (r - l) * (((i : ℝ) / ((eq_n : ℝ) - 1)) ^ k)) ∧
    (∀ i, i + 1 < eq_n + 1 →
        (pctLevels eq_n l r k).getD i 0 ≤ (pctLevels eq_n l r k).getD (i + 1) 0) ∧
    (pctLevels eq_n l r k).getD eq_n 0 = 1 := by
  have hden : (0 : ℝ) < (eq_n : ℝ) - 1 := by
    have h2 : (2 : ℝ) ≤ (eq_n : ℝ) := by exact_mod_cast hn
    linarith
  have hrl : (0 : ℝ) ≤ r - l := by linarith
  have hget : ∀ i, i < eq_n → (pctLevels eq_n l r k).getD i 0 =
      l + (r - l) * (((i : ℝ) / ((eq_n : ℝ) - 1)) ^ k) :=
    fun i hi => pctLevels_getD_lt eq_n l r k hi
  have hlast : (pctLevels eq_n l r k).getD eq_n 0 = 1 :=
    pctLevels_getD_last eq_n l r k
  refine ⟨pctLevels_length eq_n l r k, hget, ?_, hlast⟩
  intro i hi
  have hx0 : (0 : ℝ) ≤ (i : ℝ) / ((eq_n : ℝ) - 1) :=
    div_nonneg (Nat.cast_nonneg i) (le_of_lt hden)
  by_cases hcase : i + 1 < eq_n
  · rw [hget i (by omega), hget (i + 1) hcase]
    have hxy : (i : ℝ) / ((eq_n : ℝ) - 1) ≤ ((i + 1 : ℕ) : ℝ) / ((eq_n : ℝ) - 1) := by
      rw [div_le_div_iff_of_pos_right hden]
      push_cast
      linarith
    have hpow := Real.rpow_le_rpow hx0 hxy (le_of_lt hk)
    have := mul_le_mul_of_nonneg_left hpow hrl
    push_cast at this ⊢
    linarith
  · have hieq : i + 1 = eq_n := by omega
    rw [hget i (by omega), hieq, hlast]
    have hxle1 : (i : ℝ) / ((eq_n : ℝ) - 1) ≤ 1 := by
      rw [div_le_one hden]
      have : (i : ℝ) + 1 ≤ (eq_n : ℝ) := by exact_mod_cast Nat.succ_le_of_lt (by omega)
      linarith
    have hpow := Real.rpow_le_one hx0 hxle1 (le_of_lt hk)
    have := mul_le_mul_of_nonneg_left hpow hrl
    linarith

/-- C9 (witness for `C9_percentile_grid`, at `eq_n = 2`, `l = 0`, `r = 1`,
`k = 1`). -/
theorem C9_percentile_grid_witness :
    (2 ≤ 2 ∧ (0 : ℝ) < 1 ∧ (1 : ℝ) ≤ 1 ∧ (0 : ℝ) < 1) ∧
    ((pctLevels 2 0 1 1).length = 2 + 1 ∧
     (∀ i, i < 2 → (pctLevels 2 0 1 1).getD i 0 =
         0 + (1 - 0) * (((i : ℝ) / ((2 : ℕ) - 1 : ℝ)) ^ (1 : ℝ))) ∧
     (∀ i, i + 1 < 2 + 1 →
         (pctLevels 2 0 1 1).getD i 0 ≤ (pctLevels 2 0 1 1).getD (i + 1) 0) ∧
     (pctLevels 2 0 1 1).getD 2 0 = 1) :=
  ⟨⟨le_rfl, by norm_num, le_rfl, by norm_num⟩,
   C9_percentile_grid 2 0 1 1 le_rfl (by norm_num) le_rfl (by norm_num)⟩

/-! ### C1 — the `jacobian` similarity metric -/

theorem get_similarity_jacobian_eq (R S G : T4) :
    get_similarity R S "jacobian" (some G) =
      .ok (zip4With3 (fun r s g => -(|g| * |r - s|)) R S (normalizeGrad G)) := by
  unfold get_similarity
  rw [if_neg (by decide : ¬("jacobian" = "mae")),
      if_neg (by decide : ¬("jacobian" = "mse")),
      if_pos (by decide :
        "jacobian" = "hessian" ∨ "jacobian" = "jacobian" ∨
          "jacobian" = "hessian_new")]
  rfl

theorem get_similarity_hessian_eq (R S G : T4) :
    get_similarity R S "hessian" (some G) =
      .ok (zip4With3 (fun r s g => -(g * (r - s)) ^ 2) R S (normalizeGrad G)) := by
  unfold get_similarity
  rw [if_neg (by decide : ¬("hessian" = "mae")),
      if_neg (by decide : ¬("hessian" = "mse")),
      if_pos (by decide :
        "hessian" = "hessian" ∨ "hessian" = "jacobian" ∨
          "hessian" = "hessian_new")]
  rfl

/-- C1 (amended): for same-shaped tensors `R`, `S` and gradient `G`, the
`jacobian` metric scores `-(|G'| * |R - S|)` where `G'` is the *normalized*
gradient `|G| * sqrt(numel/sum G²)` — exactly the normalization the
`hessian` metric applies (both run through `normalizeGrad` before their
respective formulas). -/
theorem C1_jacobian_normalized (R S G : T4) :
    get_similarity R S "jacobian" (some G) =
      .ok (zip4With3 (fun r s g => -(|g| * |r - s|)) R S (normalizeGrad G)) ∧
    get_similarity R S "hessian" (some G) =
      .ok (zip4With3 (fun r s g => -(g * (r - s)) ^ 2) R S (normalizeGrad G)) :=
  ⟨get_similarity_jacobian_eq R S G, get_similarity_hessian_eq R S G⟩

/-- C1 (counterexample to the claim as stated): at `R = [[[[1]]]]`,
`S = [[[[0]]]]`, `G = [[[[2]]]]` the normalization factor is
`sqrt(1/4) = 1/2`, so the code scores `-(|2·(1/2)|·|1-0|) = -1`, while the
claimed un-normalized score `-(|G|·|R-S|)` is `-2`. -/
theorem C1_counterexample :
    get_similarity exR1 exS1 "jacobian" (some exG1) = .ok [[[[-1]]]] ∧
    jacobianClaimSpec exR1 exS1 exG1 = [[[[-2]]]] ∧
    get_similarity exR1 exS1 "jacobian" (some exG1) ≠
      .ok (jacobianClaimSpec exR1 exS1 exG1) := by
  have hsum : sumSq4 exG1 = 4 := by
    unfold sumSq4 flat4 matFlat exG1
    norm_num
  have hnumel : (numel4 exG1 : ℝ) = 1 := by norm_num [numel4, flat4, matFlat, exG1]
  have hfac : Real.sqrt ((numel4 exG1 : ℝ) / sumSq4 exG1) = 1 / 2 := by
    rw [hsum, hnumel]
    rw [show (1 : ℝ) / 4 = (1 / 2 : ℝ) ^ 2 by norm_num]
    exact Real.sqrt_sq (by norm_num)
  have hnorm : normalizeGrad exG1 = [[[[1]]]] := by
    unfold normalizeGrad map4 matMap
    rw [hfac]
    norm_num [exG1]
  have hL : get_similarity exR1 exS1 "jacobian" (some exG1) = .ok [[[[-1]]]] := by
    rw [get_similarity_jacobian_eq exR1 exS1 exG1, hnorm]
    norm_num [zip4With3, zipSample3, zipMat3, zipWith3R, exR1, exS1]
  have hR : jacobianClaimSpec exR1 exS1 exG1 = [[[[-2]]]] := by
    norm_num [jacobianClaimSpec, zip4With3, zipSample3, zipMat3, zipWith3R,
      exR1, exS1, exG1]
  refine ⟨hL, hR, ?_⟩
  rw [hL, hR]
  intro h
  have h2 : ([[[[-1]]]] : T4) = [[[[-2]]]] := by injection h
  have h3 := congrArg (fun t : T4 =>
    (((t.getD 0 []).getD 0 []).getD 0 []).getD 0 0) h2
  norm_num at h3

/-! ### Structural lemmas about the searches and the search tail -/

theorem searchA_ok {m : MatMulState} {c z : List (List ℝ)}
    {p : MatMulState × List ℕ} (h : search_best_A_scale m c z = .ok p) :
    p.1 = { m with A_quantizer :=
      { m.A_quantizer with
        scale := gatherRow c p.2, zero_point := gatherRow z p.2 } } := by
  unfold search_best_A_scale at h
  cases hX : (chunkList 0 m.calib_size m.calib_batch_size).mapM
      (chunkScoresA m c z) with
  | error e =>
    rw [hX] at h
    simp only [bind, Except.bind] at h
    exact absurd h (by simp)
  | ok chunks =>
    rw [hX] at h
    simp only [bind, Except.bind, Except.ok.injEq] at h
    rw [← h]

theorem searchB_ok {m : MatMulState} {c z : List (List ℝ)}
    {p : MatMulState × List ℕ} (h : search_best_B_scale m c z = .ok p) :
    p.1 = { m with B_quantizer :=
      { m.B_quantizer with
        scale := gatherRow c p.2, zero_point := gatherRow z p.2 } } := by
  unfold search_best_B_scale at h
  cases hX : (chunkList 0 m.calib_size m.calib_batch_size).mapM
      (chunkScoresB m c z) with
  | error e =>
    rw [hX] at h
    simp only [bind, Except.bind] at h
    exact absurd h (by simp)
  | ok chunks =>
    rw [hX] at h
    simp only [bind, Except.bind, Except.ok.injEq] at h
    rw [← h]

theorem foldlM_ok_pres {σ α τ : Type} (f : σ → α → Except QuantErr σ) (g : σ → τ)
    (hf : ∀ s a s', f s a = .ok s' → g s' = g s) :
    ∀ (l : List α) (s s'), l.foldlM f s = .ok s' → g s' = g s := by
  intro l
  induction l with
  | nil =>
    intro s s' h
    simp only [List.foldlM_nil, pure, Except.pure, Except.ok.injEq] at h
    rw [h]
  | cons a as ih =>
    intro s s' h
    rw [List.foldlM_cons] at h
    cases hX : f s a with
    | error e =>
      rw [hX] at h
      simp only [bind, Except.bind] at h
      exact absurd h (by simp)
    | ok s1 =>
      rw [hX] at h
      simp only [bind, Except.bind] at h
      rw [ih s1 s' h]
      exact hf s a s1 hX

theorem refinePhaseA_eq (Aup Alo : List (List ℝ)) (ee : ℕ)
    (st : MatMulState × List ℕ) :
    refinePhaseA Aup Alo ee st =
      search_best_A_scale st.1
        (scaleCandsOf
          (if ee % 2 = 0 then List.replicate Alo.length (gatherRow Aup st.2) else Aup)
          (if ee % 2 = 0 then Alo else List.replicate Aup.length (gatherRow Alo st.2))
          st.1.A_quantizer.n_levels)
        (zpCandsOf
          (if ee % 2 = 0 then Alo else List.replicate Aup.length (gatherRow Alo st.2))
          (scaleCandsOf
            (if ee % 2 = 0 then List.replicate Alo.length (gatherRow Aup st.2) else Aup)
            (if ee % 2 = 0 then Alo else List.replicate Aup.length (gatherRow Alo st.2))
            st.1.A_quantizer.n_levels)) := rfl

theorem refinePhaseB_eq (Bup Blo : List (List ℝ)) (ee : ℕ)
    (st : MatMulState × List ℕ) :
    refinePhaseB Bup Blo ee st =
      search_best_B_scale st.1
        (scaleCandsOf
          (if ee % 2 = 0 then List.replicate Blo.length (gatherRow Bup st.2) else Bup)
          (if ee % 2 = 0 then Blo else List.replicate Bup.length (gatherRow Blo st.2))
          st.1.B_quantizer.n_levels)
        (zpCandsOf
          (if ee % 2 = 0 then Blo else List.replicate Bup.length (gatherRow Blo st.2))
          (scaleCandsOf
            (if ee % 2 = 0 then List.replicate Blo.length (gatherRow Bup st.2) else Bup)
            (if ee % 2 = 0 then Blo else List.replicate Bup.length (gatherRow Blo st.2))
            st.1.B_quantizer.n_levels)) := rfl

theorem refinePhaseA_ok_mode {Aup Alo : List (List ℝ)} {ee : ℕ}
    {st p : MatMulState × List ℕ} (h : refinePhaseA Aup Alo ee st = .ok p) :
    p.1.mode = st.1.mode ∧ p.1.calibrated = st.1.calibrated ∧
    p.1.B_quantizer = st.1.B_quantizer := by
  rw [refinePhaseA_eq] at h
  rw [searchA_ok h]
  exact ⟨rfl, rfl, rfl⟩

theorem refinePhaseB_ok_mode {Bup Blo : List (List ℝ)} {ee : ℕ}
    {st p : MatMulState × List ℕ} (h : refinePhaseB Bup Blo ee st = .ok p) :
    p.1.mode = st.1.mode ∧ p.1.calibrated = st.1.calibrated ∧
    p.1.A_quantizer = st.1.A_quantizer := by
  rw [refinePhaseB_eq] at h
  rw [searchB_ok h]
  exact ⟨rfl, rfl, rfl⟩

theorem refineBlockA_ok_fields {Aup Alo : List (List ℝ)}
    {st p : MatMulState × List ℕ} (h : refineBlockA Aup Alo st = .ok p) :
    p.1.mode = st.1.mode ∧ p.1.calibrated = st.1.calibrated ∧
    p.1.B_quantizer = st.1.B_quantizer := by
  unfold refineBlockA at h
  by_cases hbit : st.1.A_quantizer.n_bits < 32
  · rw [if_pos hbit] at h
    have := foldlM_ok_pres _
      (fun s : MatMulState × List ℕ => (s.1.mode, s.1.calibrated, s.1.B_quantizer))
      (fun s a s' hs => by
        have hf := refinePhaseA_ok_mode hs
        simp only [Prod.mk.injEq]
        exact ⟨hf.1, hf.2.1, hf.2.2⟩) _ _ _ h
    simp only [Prod.mk.injEq] at this
    exact this
  · rw [if_neg hbit] at h
    simp only [pure, Except.pure, Except.ok.injEq] at h
    rw [← h]
    exact ⟨rfl, rfl, rfl⟩

theorem refineBlockB_ok_fields {Bup Blo : List (List ℝ)}
    {st p : MatMulState × List ℕ} (h : refineBlockB Bup Blo st = .ok p) :
    p.1.mode = st.1.mode ∧ p.1.calibrated = st.1.calibrated ∧
    p.1.A_quantizer = st.1.A_quantizer := by
  unfold refineBlockB at h
  by_cases hbit : st.1.B_quantizer.n_bits < 32
  · rw [if_pos hbit] at h
    have := foldlM_ok_pres _
      (fun s : MatMulState × List ℕ => (s.1.mode, s.1.calibrated, s.1.A_quantizer))
      (fun s a s' hs => by
        have hf := refinePhaseB_ok_mode hs
        simp only [Prod.mk.injEq]
        exact ⟨hf.1, hf.2.1, hf.2.2⟩) _ _ _ h
    simp only [Prod.mk.injEq] at this
    exact this
  · rw [if_neg hbit] at h
    simp only [pure, Except.pure, Except.ok.injEq] at h
    rw [← h]
    exact ⟨rfl, rfl, rfl⟩

theorem refineRound_ok_fields {Aup Alo Bup Blo : List (List ℝ)}
    {st p : MatMulState × List ℕ × List ℕ}
    (h : refineRound Aup Alo Bup Blo st = .ok p) :
    p.1.mode = st.1.mode ∧ p.1.calibrated = st.1.calibrated := by
  unfold refineRound at h
  cases hA : refineBlockA Aup Alo (st.1, st.2.1) with
  | error e =>
    rw [hA] at h
    simp only [bind, Except.bind] at h
    exact absurd h (by simp)
  | ok pA =>
    rw [hA] at h
    simp only [bind, Except.bind] at h
    cases hB : refineBlockB Bup Blo (pA.1, st.2.2) with
    | error e =>
      rw [hB] at h
      exact absurd h (by simp)
    | ok pB =>
      rw [hB] at h
      simp only [pure, Except.pure, Except.ok.injEq] at h
      have hfa := refineBlockA_ok_fields hA
      have hfb := refineBlockB_ok_fields hB
      rw [← h]
      exact ⟨by rw [hfb.1, hfa.1], by rw [hfb.2.1, hfa.2.1]⟩

theorem postSeedSearch_ok {s0 : MatMulState} {rounds : ℕ} {s' : MatMulState}
    (h : postSeedSearch s0 rounds = .ok s') :
    s'.calibrated = true ∧ s'.mode = s0.mode := by
  unfold postSeedSearch at h
  cases h1 : search_best_A_scale s0 (A_scale_cands s0) (A_zp_cands s0) with
  | error e =>
    rw [h1] at h
    simp only [bind, Except.bind] at h
    exact absurd h (by simp)
  | ok p1 =>
    obtain ⟨s1, Ai⟩ := p1
    rw [h1] at h
    simp only [bind, Except.bind] at h
    cases h2 : search_best_B_scale s1 (B_scale_cands s0) (B_zp_cands s0) with
    | error e =>
      rw [h2] at h
      exact absurd h (by simp)
    | ok p2 =>
      obtain ⟨s2, Bi⟩ := p2
      rw [h2] at h
      simp only at h
      cases h3 : (List.range rounds).foldlM
          (fun st _ => refineRound (A_percentiles s0).1 (A_percentiles s0).2
            (B_percentiles s0).1 (B_percentiles s0).2 st) (s2, Ai, Bi) with
      | error e =>
        rw [h3] at h
        exact absurd h (by simp)
      | ok st =>
        rw [h3] at h
        simp only [pure, Except.pure, Except.ok.injEq] at h
        have hmode : st.1.mode = s2.mode :=
          foldlM_ok_pres _ (fun s : MatMulState × List ℕ × List ℕ => s.1.mode)
            (fun s a s' hs => (refineRound_ok_fields hs).1) _ _ _ h3
        rw [← h]
        refine ⟨rfl, ?_⟩
        show st.1.mode = s0.mode
        rw [hmode]
        have hbm : s2.mode = s1.mode := by
          have hb := searchB_ok h2
          change (s2, Bi).1.mode = s1.mode
          rw [hb]
        have ham : s1.mode = s0.mode := by
          have ha := searchA_ok h1
          change (s1, Ai).1.mode = s0.mode
          rw [ha]
        rw [hbm, ham]

theorem seededState_mode (m : MatMulState) (mem : ℕ) :
    (seededState m mem).mode = m.mode := rfl

theorem hyperparameter_ok {m : MatMulState} {mem : ℕ} {s' : MatMulState}
    (h : hyperparameter_searching m mem = .ok s') :
    s'.calibrated = true ∧ s'.mode = m.mode := by
  unfold hyperparameter_searching at h
  have hp := postSeedSearch_ok h
  exact ⟨hp.1, by rw [hp.2, seededState_mode]⟩

/-! ### C4 — the `calibrated` gate and latch -/

/-- C4: a freshly constructed operator has `calibrated = false` and its
quantized-forward path (both `quant_forward` itself and `forward` routed
through `mode = "quant_forward"`) fails with the not-calibrated error for
every input pair; a completed `hyperparameter_searching` latches
`calibrated = true` (`calibOfResult ... true = true` says every successful
run ends calibrated), and no other operation of the engine changes
`calibrated` (the searches, the seeding, the memory-budget step and the
capture installation all preserve it exactly — none resets it). -/
theorem C4_calibrated_gate_and_latch :
    (∀ A_bit B_bit mode metric cbs sr eq_n hcw nh isl,
        (mkAsymMatMul A_bit B_bit mode metric cbs sr eq_n hcw nh isl).calibrated
          = false) ∧
    (∀ (m : MatMulState) (A B : T4), m.calibrated = false →
        quant_forward m A B = .error .notCalibrated) ∧
    (∀ (m : MatMulState) (A B : T4), m.calibrated = false →
        m.mode = "quant_forward" → mm_forward m A B = .error .notCalibrated) ∧
    (∀ m mem, calibOfResult (hyperparameter_searching m mem) true = true) ∧
    (∀ m mem, (seededState m mem).calibrated = m.calibrated) ∧
    (∀ m mem, (initialize_calib_parameters m mem).calibrated = m.calibrated) ∧
    (∀ m c z, calibOfSearch (search_best_A_scale m c z) m.calibrated
        = m.calibrated) ∧
    (∀ m c z, calibOfSearch (search_best_B_scale m c z) m.calibrated
        = m.calibrated) ∧
    (∀ cap s, (installCapture cap s).calibrated = s.calibrated) := by
  refine ⟨fun _ _ _ _ _ _ _ _ _ _ => rfl, ?_, ?_, ?_, fun _ _ => rfl,
    fun _ _ => rfl, ?_, ?_, fun _ _ => rfl⟩
  · intro m A B h
    unfold quant_forward
    rw [h]
    simp
  · intro m A B h hm
    unfold mm_forward
    rw [hm, if_neg (by decide : ¬("quant_forward" = "raw")), if_pos rfl]
    unfold quant_forward
    rw [h]
    simp
  · intro m mem
    cases hr : hyperparameter_searching m mem with
    | error e => rfl
    | ok s' =>
      show s'.calibrated = true
      exact (hyperparameter_ok hr).1
  · intro m c z
    cases hr : search_best_A_scale m c z with
    | error e => rfl
    | ok p =>
      show p.1.calibrated = m.calibrated
      rw [searchA_ok hr]
  · intro m c z
    cases hr : search_best_B_scale m c z with
    | error e => rfl
    | ok p =>
      show p.1.calibrated = m.calibrated
      rw [searchB_ok hr]

/-- C4 (witness for `C4_calibrated_gate_and_latch`). -/
theorem C4_calibrated_gate_and_latch_witness :
    (mkAsymMatMul 8 8 "quant_forward" "mse" 1 1 2 false 1 4).calibrated
        = false ∧
    quant_forward (mkAsymMatMul 8 8 "quant_forward" "mse" 1 1 2 false 1 4) [] []
        = .error .notCalibrated ∧
    mm_forward (mkAsymMatMul 8 8 "quant_forward" "mse" 1 1 2 false 1 4) [] []
        = .error .notCalibrated :=
  ⟨rfl,
   C4_calibrated_gate_and_latch.2.1 _ [] [] rfl,
   C4_calibrated_gate_and_latch.2.2.1 _ [] [] rfl rfl⟩

/-! ### C6 — one global mode flip -/

theorem calibModule_ok_mode {mem : ℕ} {cap : Capture} {mod mod' : CalModule}
    (h : calibModule mem cap mod = .ok mod') :
    moduleMode mod' = moduleMode mod := by
  cases mod with
  | other mo =>
    simp only [calibModule, Except.ok.injEq] at h
    rw [← h]
  | mm s =>
    simp only [calibModule] at h
    by_cases hc : s.calibrated = false
    · rw [if_pos hc] at h
      cases hr : hyperparameter_searching (installCapture cap s) mem with
      | error e =>
        rw [hr] at h
        simp only [Except.map] at h
        exact absurd h (by simp)
      | ok s' =>
        rw [hr] at h
        simp only [Except.map, Except.ok.injEq] at h
        rw [← h]
        show some s'.mode = some s.mode
        rw [(hyperparameter_ok hr).2]
        rfl
    · rw [if_neg hc] at h
      simp only [Except.ok.injEq] at h
      rw [← h]

/-- C6: during the per-operator calibration passes the orchestrator never
touches any module's `mode` (each per-module step and every prefix of the
sequential pass leaves all modes exactly as they were, in particular none is
switched to `quant_forward` early); the final pass of
`batching_quant_calib` then sets — in one global sweep — the mode of every
module that carries a `mode` attribute to `"quant_forward"`. -/
theorem C6_single_global_mode_flip :
    (∀ mem cap mod, modeOfModuleResult (calibModule mem cap mod)
        (moduleMode mod) = moduleMode mod) ∧
    (∀ mem caps i ms, modesOfSeqResult (calibSeq mem caps i ms)
        (ms.map moduleMode) = ms.map moduleMode) ∧
    (∀ ms : List CalModule, (setQuantForwardAll ms).all
        (fun mod => match moduleMode mod with
          | none => true
          | some s => s == "quant_forward") = true) ∧
    (∀ mem caps ms, batching_quant_calib mem caps ms =
        (calibSeq mem caps 0 ms).map setQuantForwardAll) := by
  refine ⟨?_, ?_, ?_, fun _ _ _ => rfl⟩
  · intro mem cap mod
    cases hr : calibModule mem cap mod with
    | error e => rfl
    | ok mod' =>
      show moduleMode mod' = moduleMode mod
      exact calibModule_ok_mode hr
  · intro mem caps i ms
    induction ms generalizing i with
    | nil => rfl
    | cons mod rest ih =>
      unfold calibSeq
      cases h1 : calibModule mem (caps i) mod with
      | error e =>
        simp only [bind, Except.bind]
        rfl
      | ok mod' =>
        simp only [bind, Except.bind]
        cases h2 : calibSeq mem caps (i + 1) rest with
        | error e => rfl
        | ok rest' =>
          show (mod' :: rest').map moduleMode = (mod :: rest).map moduleMode
          have hih := ih (i + 1)
          rw [h2] at hih
          simp only [List.map_cons]
          rw [calibModule_ok_mode h1]
          rw [show rest'.map moduleMode = rest.map moduleMode from hih]
  · intro ms
    unfold setQuantForwardAll
    rw [List.all_map, List.all_eq_true]
    intro mod _
    cases mod with
    | mm s => rfl
    | other mo => cases mo with
      | none => rfl
      | some str => rfl

/-! ### C7 — seeding with the second-to-last candidate -/

theorem A_scale_cands_length (m : MatMulState) :
    (A_scale_cands m).length = m.eq_n + 1 := by
  unfold A_scale_cands scaleCandsOf A_percentiles calculate_percentile_candidates
  rw [List.length_zipWith, List.length_map, List.length_map, pctLevels_length,
    min_self]

theorem B_scale_cands_length (m : MatMulState) :
    (B_scale_cands m).length = m.eq_n + 1 := by
  unfold B_scale_cands scaleCandsOf B_percentiles calculate_percentile_candidates
  rw [List.length_zipWith, List.length_map, List.length_map, pctLevels_length,
    min_self]

theorem A_zp_cands_length (m : MatMulState) :
    (A_zp_cands m).length = m.eq_n + 1 := by
  unfold A_zp_cands zpCandsOf
  rw [List.length_zipWith, A_scale_cands_length]
  have : (A_percentiles m).2.length = m.eq_n + 1 := by
    unfold A_percentiles calculate_percentile_candidates
    rw [List.length_map, pctLevels_length]
  rw [this, min_self]

theorem B_zp_cands_length (m : MatMulState) :
    (B_zp_cands m).length = m.eq_n + 1 := by
  unfold B_zp_cands zpCandsOf
  rw [List.length_zipWith, B_scale_cands_length]
  have : (B_percentiles m).2.length = m.eq_n + 1 := by
    unfold B_percentiles calculate_percentile_candidates
    rw [List.length_map, pctLevels_length]
  rw [this, min_self]

/-- C7: before any forward simulation, `hyperparameter_searching` copies the
second-to-last (`[-2]`, i.e. index `eq_n - 1` of the `eq_n + 1`-row grid)
scale and zero-point candidate rows into both quantizers and sets their
`inited` flags; that row's percentile level is the maximal non-degenerate
level `r = 0.99999`; and the whole search tail runs on this seeded state
(`hyperparameter_searching = postSeedSearch ∘ seededState`). -/
theorem C7_seed_second_to_last (m : MatMulState) (mem : ℕ) (hn : 2 ≤ m.eq_n) :
    (A_scale_cands (initialize_calib_parameters m mem)).length = m.eq_n + 1 ∧
    (B_scale_cands (initialize_calib_parameters m mem)).length = m.eq_n + 1 ∧
    (seededState m mem).A_quantizer.scale =
      (A_scale_cands (initialize_calib_parameters m mem)).getD (m.eq_n - 1) [] ∧
    (seededState m mem).A_quantizer.zero_point =
      (A_zp_cands (initialize_calib_parameters m mem)).getD (m.eq_n - 1) [] ∧
    (seededState m mem).B_quantizer.scale =
      (B_scale_cands (initialize_calib_parameters m mem)).getD (m.eq_n - 1) [] ∧
    (seededState m mem).B_quantizer.zero_point =
      (B_zp_cands (initialize_calib_parameters m mem)).getD (m.eq_n - 1) [] ∧
    (seededState m mem).A_quantizer.inited = true ∧
    (seededState m mem).B_quantizer.inited = true ∧
    (pctLevels m.eq_n 0.999 0.99999 0.1).getD (m.eq_n - 1) 0 = 0.99999 ∧
    hyperparameter_searching m mem =
      postSeedSearch (seededState m mem) m.search_round := by
  have hAlen : (A_scale_cands (initialize_calib_parameters m mem)).length
      = m.eq_n + 1 := A_scale_cands_length _
  have hBlen : (B_scale_cands (initialize_calib_parameters m mem)).length
      = m.eq_n + 1 := B_scale_cands_length _
  have hAzlen : (A_zp_cands (initialize_calib_parameters m mem)).length
      = m.eq_n + 1 := A_zp_cands_length _
  have hBzlen : (B_zp_cands (initialize_calib_parameters m mem)).length
      = m.eq_n + 1 := B_zp_cands_length _
  refine ⟨hAlen, hBlen, ?_, ?_, ?_, ?_, rfl, rfl,
    pctLevels_getD_seed m.eq_n 0.999 0.99999 0.1 hn, rfl⟩
  · show (A_scale_cands (initialize_calib_parameters m mem)).getD
        ((A_scale_cands (initialize_calib_parameters m mem)).length - 2) [] = _
    rw [hAlen]
    rfl
  · show (A_zp_cands (initialize_calib_parameters m mem)).getD
        ((A_zp_cands (initialize_calib_parameters m mem)).length - 2) [] = _
    rw [hAzlen]
    rfl
  · show (B_scale_cands (initialize_calib_parameters m mem)).getD
        ((B_scale_cands (initialize_calib_parameters m mem)).length - 2) [] = _
    rw [hBlen]
    rfl
  · show (B_zp_cands (initialize_calib_parameters m mem)).getD
        ((B_zp_cands (initialize_calib_parameters m mem)).length - 2) [] = _
    rw [hBzlen]
    rfl

/-- C7 (witness for `C7_seed_second_to_last`). -/
theorem C7_seed_second_to_last_witness :
    2 ≤ exC7.eq_n ∧ (seededState exC7 7).A_quantizer.inited = true ∧
    (seededState exC7 7).B_quantizer.inited = true :=
  ⟨by decide,
   (C7_seed_second_to_last exC7 7 (by decide)).2.2.2.2.2.2.1,
   (C7_seed_second_to_last exC7 7 (by decide)).2.2.2.2.2.2.2.1⟩

/-! ### C8 — two refinement phases per side per round, skipped at 32 bits -/

theorem foldlM_range_two {σ : Type} (f : σ → ℕ → Except QuantErr σ) (s : σ) :
    (List.range 2).foldlM f s = f s 0 >>= fun s1 => f s1 1 := by
  rw [show List.range 2 = [0, 1] from rfl]
  simp only [List.foldlM_cons, List.foldlM_nil, bind_pure]

/-- C8: in each refinement round, a side whose bit-width is below 32 runs
exactly two search phases in order — phase `ee = 0` re-derives candidates
with the *upper* percentile endpoint held (gathered) at the current best
index while the lower endpoint sweeps the whole grid, then phase `ee = 1`
holds the lower endpoint and sweeps the uppers — and a side whose bit-width
is 32 runs no phase at all: its block is the identity, and the round leaves
its best index and quantizer untouched. -/
theorem C8_two_phase_refinement (Aup Alo Bup Blo : List (List ℝ))
    (st : MatMulState × List ℕ × List ℕ) :
    (st.1.A_quantizer.n_bits < 32 →
      refineBlockA Aup Alo (st.1, st.2.1) =
        refinePhaseA Aup Alo 0 (st.1, st.2.1) >>= refinePhaseA Aup Alo 1) ∧
    (∀ s : MatMulState × List ℕ,
      refinePhaseA Aup Alo 0 s =
        search_best_A_scale s.1
          (scaleCandsOf (List.replicate Alo.length (gatherRow Aup s.2)) Alo
            s.1.A_quantizer.n_levels)
          (zpCandsOf Alo
            (scaleCandsOf (List.replicate Alo.length (gatherRow Aup s.2)) Alo
              s.1.A_quantizer.n_levels))) ∧
    (∀ s : MatMulState × List ℕ,
      refinePhaseA Aup Alo 1 s =
        search_best_A_scale s.1
          (scaleCandsOf Aup (List.replicate Aup.length (gatherRow Alo s.2))
            s.1.A_quantizer.n_levels)
          (zpCandsOf (List.replicate Aup.length (gatherRow Alo s.2))
            (scaleCandsOf Aup (List.replicate Aup.length (gatherRow Alo s.2))
              s.1.A_quantizer.n_levels))) ∧
    (st.1.A_quantizer.n_bits = 32 →
      refineBlockA Aup Alo (st.1, st.2.1) = pure (st.1, st.2.1)) ∧
    (st.1.A_quantizer.n_bits = 32 →
      match refineRound Aup Alo Bup Blo st with
      | .ok p => p.2.1 = st.2.1 ∧ p.1.A_quantizer = st.1.A_quantizer
      | .error _ => True) ∧
    (st.1.B_quantizer.n_bits < 32 →
      refineBlockB Bup Blo (st.1, st.2.2) =
        refinePhaseB Bup Blo 0 (st.1, st.2.2) >>= refinePhaseB Bup Blo 1) ∧
    (∀ s : MatMulState × List ℕ,
      refinePhaseB Bup Blo 0 s =
        search_best_B_scale s.1
          (scaleCandsOf (List.replicate Blo.length (gatherRow Bup s.2)) Blo
            s.1.B_quantizer.n_levels)
          (zpCandsOf Blo
            (scaleCandsOf (List.replicate Blo.length (gatherRow Bup s.2)) Blo
              s.1.B_quantizer.n_levels))) ∧
    (∀ s : MatMulState × List ℕ,
      refinePhaseB Bup Blo 1 s =
        search_best_B_scale s.1
          (scaleCandsOf Bup (List.replicate Bup.length (gatherRow Blo s.2))
            s.1.B_quantizer.n_levels)
          (zpCandsOf (List.replicate Bup.length (gatherRow Blo s.2))
            (scaleCandsOf Bup (List.replicate Bup.length (gatherRow Blo s.2))
              s.1.B_quantizer.n_levels))) ∧
    (st.1.B_quantizer.n_bits = 32 → st.1.A_quantizer.n_bits = 32 →
      refineRound Aup Alo Bup Blo st = pure st) := by
  refine ⟨?_, fun s => rfl, fun s => rfl, ?_, ?_, ?_, fun s => rfl, fun s => rfl,
    ?_⟩
  · intro hbit
    unfold refineBlockA
    rw [if_pos (show (st.1, st.2.1).1.A_quantizer.n_bits < 32 from hbit)]
    exact foldlM_range_two _ _
  · intro h32
    unfold refineBlockA
    rw [if_neg (show ¬((st.1, st.2.1).1.A_quantizer.n_bits < 32) by
      show ¬(st.1.A_quantizer.n_bits < 32); omega)]
  · intro h32
    unfold refineRound
    have hA : refineBlockA Aup Alo (st.1, st.2.1) = pure (st.1, st.2.1) := by
      unfold refineBlockA
      rw [if_neg (show ¬((st.1, st.2.1).1.A_quantizer.n_bits < 32) by
        show ¬(st.1.A_quantizer.n_bits < 32); omega)]
    rw [hA]
    simp only [pure, Except.pure, bind, Except.bind]
    cases hB : refineBlockB Bup Blo ((st.1, st.2.1).1, st.2.2) with
    | error e => trivial
    | ok pB =>
      have hfb := refineBlockB_ok_fields hB
      exact ⟨rfl, hfb.2.2⟩
  · intro hbit
    unfold refineBlockB
    rw [if_pos (show (st.1, st.2.2).1.B_quantizer.n_bits < 32 from hbit)]
    exact foldlM_range_two _ _
  · intro hB32 hA32
    unfold refineRound
    have hA : refineBlockA Aup Alo (st.1, st.2.1) = pure (st.1, st.2.1) := by
      unfold refineBlockA
      rw [if_neg (show ¬((st.1, st.2.1).1.A_quantizer.n_bits < 32) by
        show ¬(st.1.A_quantizer.n_bits < 32); omega)]
    have hB : refineBlockB Bup Blo (st.1, st.2.2) = pure (st.1, st.2.2) := by
      unfold refineBlockB
      rw [if_neg (show ¬((st.1, st.2.2).1.B_quantizer.n_bits < 32) by
        show ¬(st.1.B_quantizer.n_bits < 32); omega)]
    rw [hA]
    simp only [pure, Except.pure, bind, Except.bind]
    rw [show ((st.1, st.2.1).1, st.2.2) = (st.1, st.2.2) from rfl, hB]
    rfl

/-- C8 (witness for `C8_two_phase_refinement`, at a 32-bit `A` side). -/
theorem C8_two_phase_refinement_witness :
    exC8.A_quantizer.n_bits = 32 ∧
    refineBlockA [] [] (exC8, ([] : List ℕ)) = pure (exC8, ([] : List ℕ)) :=
  ⟨rfl,
   (C8_two_phase_refinement [] [] [] [] (exC8, ([] : List ℕ), ([] : List ℕ))).2.2.2.1
     rfl⟩

/-! ### C10 — only the first `eq_n` candidates are ever evaluated -/

theorem chunkList_flatMap (n s : ℕ) (hs : 0 < s) :
    ∀ (d st : ℕ), n - st ≤ d →
      ((chunkList st n s).flatMap fun x => List.range' x (min n (x + s) - x)) =
        List.range' st (n - st) := by
  intro d
  induction d with
  | zero =>
    intro st hd
    rw [chunkList, dif_neg (by omega)]
    rw [show n - st = 0 from by omega]
    rfl
  | succ d ih =>
    intro st hd
    by_cases hlt : st < n
    · rw [chunkList, dif_pos ⟨hlt, hs⟩, List.flatMap_cons, ih (st + s) (by omega)]
      by_cases hc : st + s ≤ n
      · rw [min_eq_right hc, show st + s - st = s from by omega]
        rw [show st + s = st + s from rfl]
        rw [List.range'_append_1 st s (n - (st + s))]
        rw [show n - (st + s) + s = n - st from by omega]
      · rw [min_eq_left (by omega), show n - (st + s) = 0 from by omega]
        rw [show List.range' (st + s) 0 = [] from rfl, List.append_nil]
    · rw [chunkList, dif_neg (by omega)]
      rw [show n - st = 0 from by omega]
      rfl

theorem candIdxs_eq_range (n s : ℕ) (hs : 0 < s) :
    candIdxs n s = List.range n := by
  unfold candIdxs
  rw [chunkList_flatMap n s hs n 0 (by omega), Nat.sub_zero,
    List.range_eq_range']

theorem mapM_ok_of_forall {α β : Type} (f : α → Except QuantErr β)
    (P : β → Prop) :
    ∀ l : List α, (∀ a ∈ l, ∃ b, f a = .ok b ∧ P b) →
      ∃ bs, l.mapM f = .ok bs ∧ bs.length = l.length ∧ ∀ b ∈ bs, P b := by
  intro l
  induction l with
  | nil => exact fun _ => ⟨[], rfl, rfl, by simp⟩
  | cons a as ih =>
    intro h
    obtain ⟨b, hb, hPb⟩ := h a (List.mem_cons_self a as)
    obtain ⟨bs, hbs, hlen, hP⟩ := ih fun x hx => h x (List.mem_cons_of_mem a hx)
    refine ⟨b :: bs, ?_, by simp [hlen], ?_⟩
    · rw [List.mapM_cons, hb]
      simp only [bind, Except.bind]
      rw [hbs]
      rfl
    · intro x hx
      rcases List.mem_cons.mp hx with rfl | hmem
      · exact hPb
      · exact hP x hmem

theorem mapM_congr {α β : Type} (f g : α → Except QuantErr β) :
    ∀ l : List α, (∀ a ∈ l, f a = g a) → l.mapM f = l.mapM g := by
  intro l
  induction l with
  | nil => exact fun _ => rfl
  | cons a as ih =>
    intro h
    rw [List.mapM_cons, List.mapM_cons, h a (List.mem_cons_self a as),
      ih fun x hx => h x (List.mem_cons_of_mem a hx)]

theorem argmaxIdx_lt : ∀ l : List ℝ, l ≠ [] → argmaxIdx l < l.length := by
  intro l
  induction l with
  | nil => exact fun h => absurd rfl h
  | cons x xs ih =>
    intro _
    cases xs with
    | nil => simp [argmaxIdx]
    | cons y ys =>
      rw [argmaxIdx]
      by_cases hgt : (y :: ys).getD (argmaxIdx (y :: ys)) 0 > x
      · rw [if_pos hgt]
        have := ih (by simp)
        simpa using this
      · rw [if_neg hgt]
        simp

theorem forward_ok_of_inited (q : UniformQuantizer) (x : T4)
    (h : q.inited = true) : ∃ y, q.forward x = .ok y := by
  unfold UniformQuantizer.forward
  by_cases h32 : q.n_bits = 32
  · exact ⟨x, by rw [if_pos h32]⟩
  · refine ⟨map4H (fun hh v =>
      let idx := if q.channel_wise then hh else 0
      uqElt q.sym q.n_levels (q.scale.getD idx 0) (q.zero_point.getD idx 0) v) x,
      ?_⟩
    rw [if_neg h32, h, if_neg (by decide : ¬(true = false))]

theorem get_similarity_mse (R S : T4) (g : Option T4) :
    get_similarity R S "mse" g = .ok (zip4 (fun r s => -(r - s) ^ 2) R S) := by
  unfold get_similarity
  rw [if_neg (by decide : ¬("mse" = "mae")), if_pos rfl]

theorem simReduce_length (m : MatMulState) (sim : T4) :
    (simReduce m.head_channel_wise (HcolsOf m) sim).length = HcolsOf m := by
  unfold simReduce HcolsOf
  cases hh : m.head_channel_wise with
  | true => simp
  | false => simp

theorem candScoreA_mse_ok (m : MatMulState) (hmet : m.metric = "mse")
    (Ach Bsim rawOutCh : T4) (gradCh : Option T4)
    (scC zpC : List (List ℝ)) (p : ℕ) :
    ∃ row, candScoreA m Ach Bsim rawOutCh gradCh scC zpC p = .ok row ∧
      row.length = HcolsOf m := by
  unfold candScoreA
  rw [hmet]
  dsimp only
  rw [get_similarity_mse]
  simp only [bind, Except.bind]
  exact ⟨_, rfl, simReduce_length _ _⟩

theorem candScoreB_mse_ok (m : MatMulState) (hmet : m.metric = "mse")
    (Asim Bch rawOutCh : T4) (gradCh : Option T4)
    (scC zpC : List (List ℝ)) (p : ℕ) :
    ∃ row, candScoreB m Asim Bch rawOutCh gradCh scC zpC p = .ok row ∧
      row.length = HcolsOf m := by
  unfold candScoreB
  rw [hmet]
  dsimp only
  rw [get_similarity_mse]
  simp only [bind, Except.bind]
  exact ⟨_, rfl, simReduce_length _ _⟩

theorem chunkScoresA_mse_ok (m : MatMulState) (hmet : m.metric = "mse")
    (hB : m.B_quantizer.inited = true) (sc zp : List (List ℝ)) (b_st : ℕ) :
    ∃ rows, chunkScoresA m sc zp b_st = .ok rows ∧
      rows.length = (candIdxs m.eq_n m.parallel_eq_n).length := by
  unfold chunkScoresA quant_input_B
  dsimp only
  obtain ⟨Bq, hBq⟩ := forward_ok_of_inited m.B_quantizer
    (sliceT4 m.raw_input.2 b_st (min m.calib_size (b_st + m.calib_batch_size)))
    hB
  rw [hBq]
  simp only [bind, Except.bind]
  obtain ⟨rows, hrows, hlen, _⟩ := mapM_ok_of_forall
    (candScoreA m
      (sliceT4 m.raw_input.1 b_st (min m.calib_size (b_st + m.calib_batch_size)))
      Bq
      (sliceT4 m.raw_out b_st (min m.calib_size (b_st + m.calib_batch_size)))
      (m.raw_grad.map fun g =>
        sliceT4 g b_st (min m.calib_size (b_st + m.calib_batch_size)))
      sc zp)
    (fun _ => True) (candIdxs m.eq_n m.parallel_eq_n)
    (fun p _ => by
      obtain ⟨row, hrow, _⟩ := candScoreA_mse_ok m hmet _ Bq _ _ sc zp p
      exact ⟨row, hrow, trivial⟩)
  exact ⟨rows, hrows, hlen⟩

theorem chunkScoresB_mse_ok (m : MatMulState) (hmet : m.metric = "mse")
    (hA : m.A_quantizer.inited = true) (sc zp : List (List ℝ)) (b_st : ℕ) :
    ∃ rows, chunkScoresB m sc zp b_st = .ok rows ∧
      rows.length = (candIdxs m.eq_n m.parallel_eq_n).length := by
  unfold chunkScoresB quant_input_A
  dsimp only
  obtain ⟨Aq, hAq⟩ := forward_ok_of_inited m.A_quantizer
    (sliceT4 m.raw_input.1 b_st (min m.calib_size (b_st + m.calib_batch_size)))
    hA
  rw [hAq]
  simp only [bind, Except.bind]
  obtain ⟨rows, hrows, hlen, _⟩ := mapM_ok_of_forall
    (candScoreB m Aq
      (sliceT4 m.raw_input.2 b_st (min m.calib_size (b_st + m.calib_batch_size)))
      (sliceT4 m.raw_out b_st (min m.calib_size (b_st + m.calib_batch_size)))
      (m.raw_grad.map fun g =>
        sliceT4 g b_st (min m.calib_size (b_st + m.calib_batch_size)))
      sc zp)
    (fun _ => True) (candIdxs m.eq_n m.parallel_eq_n)
    (fun p _ => by
      obtain ⟨row, hrow, _⟩ := candScoreB_mse_ok m hmet Aq _ _ _ sc zp p
      exact ⟨row, hrow, trivial⟩)
  exact ⟨rows, hrows, hlen⟩

theorem addRows_length (x y : List (List ℝ)) :
    (addRows x y).length = min x.length y.length := List.length_zipWith _ _ _

theorem foldl_addRows_length :
    ∀ (cs : List (List (List ℝ))) (acc : List (List ℝ)),
      (∀ c ∈ cs, c.length = acc.length) →
      (cs.foldl addRows acc).length = acc.length := by
  intro cs
  induction cs with
  | nil => exact fun _ _ => rfl
  | cons c rest ih =>
    intro acc h
    rw [List.foldl_cons]
    have hc : (addRows acc c).length = acc.length := by
      rw [addRows_length, h c (List.mem_cons_self c rest), min_self]
    rw [ih (addRows acc c) (fun c' hc' => by
      rw [hc, h c' (List.mem_cons_of_mem c hc')]), hc]

theorem getD_take {α : Type} (l : List α) (n p : ℕ) (d : α) (h : p < n) :
    (l.take n).getD p d = l.getD p d := by
  rw [List.getD_eq_getElem?_getD, List.getD_eq_getElem?_getD,
    List.getElem?_take_of_lt h]

theorem gatherRow_take (c : List (List ℝ)) (idxs : List ℕ) (n : ℕ)
    (h : ∀ i ∈ idxs, i < n) :
    gatherRow (c.take n) idxs = gatherRow c idxs := by
  unfold gatherRow
  apply List.map_congr_left
  intro hi hmem
  have hsnd : hi.2 ∈ idxs := by
    have := List.mem_enum_iff_getElem?.mp hmem
    exact List.getElem?_mem this
  rw [getD_take _ _ _ _ (h hi.2 hsnd)]

theorem candScoreA_take (m : MatMulState) (Ach Bsim rawOutCh : T4)
    (gradCh : Option T4) (c z : List (List ℝ)) (p : ℕ) (hplt : p < m.eq_n) :
    candScoreA m Ach Bsim rawOutCh gradCh (c.take m.eq_n) (z.take m.eq_n) p =
      candScoreA m Ach Bsim rawOutCh gradCh c z p := by
  unfold candScoreA
  rw [getD_take _ _ _ _ hplt, getD_take _ _ _ _ hplt]

theorem candScoreB_take (m : MatMulState) (Asim Bch rawOutCh : T4)
    (gradCh : Option T4) (c z : List (List ℝ)) (p : ℕ) (hplt : p < m.eq_n) :
    candScoreB m Asim Bch rawOutCh gradCh (c.take m.eq_n) (z.take m.eq_n) p =
      candScoreB m Asim Bch rawOutCh gradCh c z p := by
  unfold candScoreB
  rw [getD_take _ _ _ _ hplt, getD_take _ _ _ _ hplt]

theorem chunkScoresA_take (m : MatMulState) (c z : List (List ℝ)) (b_st : ℕ)
    (hp : 1 ≤ m.parallel_eq_n) :
    chunkScoresA m (c.take m.eq_n) (z.take m.eq_n) b_st =
      chunkScoresA m c z b_st := by
  unfold chunkScoresA
  dsimp only
  exact congrArg (fun k => quant_input_B m
      (sliceT4 m.raw_input.2 b_st (min m.calib_size (b_st + m.calib_batch_size)))
      >>= k)
    (funext fun Bq => mapM_congr _ _ _ fun p hmem => by
      rw [candIdxs_eq_range _ _ hp] at hmem
      exact candScoreA_take m _ Bq _ _ c z p (List.mem_range.mp hmem))

theorem chunkScoresB_take (m : MatMulState) (c z : List (List ℝ)) (b_st : ℕ)
    (hp : 1 ≤ m.parallel_eq_n) :
    chunkScoresB m (c.take m.eq_n) (z.take m.eq_n) b_st =
      chunkScoresB m c z b_st := by
  unfold chunkScoresB
  dsimp only
  exact congrArg (fun k => quant_input_A m
      (sliceT4 m.raw_input.1 b_st (min m.calib_size (b_st + m.calib_batch_size)))
      >>= k)
    (funext fun Aq => mapM_congr _ _ _ fun p hmem => by
      rw [candIdxs_eq_range _ _ hp] at hmem
      exact candScoreB_take m Aq _ _ _ c z p (List.mem_range.mp hmem))

/-- The per-head argmax indices over an accumulated similarity table with
`eq_n` rows are all below `eq_n`. -/
theorem bestIdx_bound (m : MatMulState) (chunks : List (List (List ℝ)))
    (hlen : ∀ ch ∈ chunks, ch.length = m.eq_n) (hn : 1 ≤ m.eq_n) :
    ∀ i ∈ (List.range (HcolsOf m)).map (fun h =>
      argmaxIdx ((chunks.foldl addRows
        (List.replicate m.eq_n (List.replicate (HcolsOf m) 0))).map
          fun row => row.getD h 0)),
      i < m.eq_n := by
  intro i hi
  obtain ⟨h, _, rfl⟩ := List.mem_map.mp hi
  have hblen : (chunks.foldl addRows
      (List.replicate m.eq_n (List.replicate (HcolsOf m) 0))).length = m.eq_n := by
    rw [foldl_addRows_length chunks _ (fun c hc => by
      rw [List.length_replicate]
      exact hlen c hc)]
    exact List.length_replicate _ _
  have hne : (chunks.foldl addRows
      (List.replicate m.eq_n (List.replicate (HcolsOf m) 0))).map
        (fun row => row.getD h 0) ≠ [] := by
    apply List.length_pos.mp
    rw [List.length_map, hblen]
    omega
  have := argmaxIdx_lt _ hne
  rwa [List.length_map, hblen] at this

theorem searchA_analysis (m : MatMulState) (c z : List (List ℝ))
    (hmet : m.metric = "mse") (hB : m.B_quantizer.inited = true)
    (hn : 1 ≤ m.eq_n) (hp : 1 ≤ m.parallel_eq_n) :
    ∃ idxs, search_best_A_scale m c z =
        .ok ({ m with A_quantizer := { m.A_quantizer with
          scale := gatherRow c idxs, zero_point := gatherRow z idxs } }, idxs) ∧
      idxs.length = HcolsOf m ∧ ∀ i ∈ idxs, i < m.eq_n := by
  obtain ⟨chunks, hchunks, _, hchP⟩ := mapM_ok_of_forall
    (chunkScoresA m c z) (fun rows => rows.length = m.eq_n)
    (chunkList 0 m.calib_size m.calib_batch_size)
    (fun b _ => by
      obtain ⟨rows, hrows, hlen⟩ := chunkScoresA_mse_ok m hmet hB c z b
      refine ⟨rows, hrows, ?_⟩
      show rows.length = m.eq_n
      rw [hlen, candIdxs_eq_range _ _ hp, List.length_range])
  unfold search_best_A_scale
  rw [hchunks]
  simp only [bind, Except.bind]
  refine ⟨_, rfl, ?_, ?_⟩
  · rw [List.length_map, List.length_range]
  · exact bestIdx_bound m chunks hchP hn

theorem searchB_analysis (m : MatMulState) (c z : List (List ℝ))
    (hmet : m.metric = "mse") (hA : m.A_quantizer.inited = true)
    (hn : 1 ≤ m.eq_n) (hp : 1 ≤ m.parallel_eq_n) :
    ∃ idxs, search_best_B_scale m c z =
        .ok ({ m with B_quantizer := { m.B_quantizer with
          scale := gatherRow c idxs, zero_point := gatherRow z idxs } }, idxs) ∧
      idxs.length = HcolsOf m ∧ ∀ i ∈ idxs, i < m.eq_n := by
  obtain ⟨chunks, hchunks, _, hchP⟩ := mapM_ok_of_forall
    (chunkScoresB m c z) (fun rows => rows.length = m.eq_n)
    (chunkList 0 m.calib_size m.calib_batch_size)
    (fun b _ => by
      obtain ⟨rows, hrows, hlen⟩ := chunkScoresB_mse_ok m hmet hA c z b
      refine ⟨rows, hrows, ?_⟩
      show rows.length = m.eq_n
      rw [hlen, candIdxs_eq_range _ _ hp, List.length_range])
  unfold search_best_B_scale
  rw [hchunks]
  simp only [bind, Except.bind]
  refine ⟨_, rfl, ?_, ?_⟩
  · rw [List.length_map, List.length_range]
  · exact bestIdx_bound m chunks hchP hn

theorem searchA_take_eq (m : MatMulState) (c z : List (List ℝ))
    (hmet : m.metric = "mse") (hB : m.B_quantizer.inited = true)
    (hn : 1 ≤ m.eq_n) (hp : 1 ≤ m.parallel_eq_n) :
    search_best_A_scale m (c.take m.eq_n) (z.take m.eq_n) =
      search_best_A_scale m c z := by
  have hmap : (chunkList 0 m.calib_size m.calib_batch_size).mapM
      (chunkScoresA m (c.take m.eq_n) (z.take m.eq_n)) =
      (chunkList 0 m.calib_size m.calib_batch_size).mapM (chunkScoresA m c z) :=
    mapM_congr _ _ _ fun b _ => chunkScoresA_take m c z b hp
  obtain ⟨chunks, hchunks, _, hchP⟩ := mapM_ok_of_forall
    (chunkScoresA m c z) (fun rows => rows.length = m.eq_n)
    (chunkList 0 m.calib_size m.calib_batch_size)
    (fun b _ => by
      obtain ⟨rows, hrows, hlen⟩ := chunkScoresA_mse_ok m hmet hB c z b
      refine ⟨rows, hrows, ?_⟩
      show rows.length = m.eq_n
      rw [hlen, candIdxs_eq_range _ _ hp, List.length_range])
  unfold search_best_A_scale
  rw [hmap, hchunks]
  simp only [bind, Except.bind]
  have hbound := bestIdx_bound m chunks hchP hn
  rw [gatherRow_take c _ m.eq_n hbound, gatherRow_take z _ m.eq_n hbound]

theorem searchB_take_eq (m : MatMulState) (c z : List (List ℝ))
    (hmet : m.metric = "mse") (hA : m.A_quantizer.inited = true)
    (hn : 1 ≤ m.eq_n) (hp : 1 ≤ m.parallel_eq_n) :
    search_best_B_scale m (c.take m.eq_n) (z.take m.eq_n) =
      search_best_B_scale m c z := by
  have hmap : (chunkList 0 m.calib_size m.calib_batch_size).mapM
      (chunkScoresB m (c.take m.eq_n) (z.take m.eq_n)) =
      (chunkList 0 m.calib_size m.calib_batch_size).mapM (chunkScoresB m c z) :=
    mapM_congr _ _ _ fun b _ => chunkScoresB_take m c z b hp
  obtain ⟨chunks, hchunks, _, hchP⟩ := mapM_ok_of_forall
    (chunkScoresB m c z) (fun rows => rows.length = m.eq_n)
    (chunkList 0 m.calib_size m.calib_batch_size)
    (fun b _ => by
      obtain ⟨rows, hrows, hlen⟩ := chunkScoresB_mse_ok m hmet hA c z b
      refine ⟨rows, hrows, ?_⟩
      show rows.length = m.eq_n
      rw [hlen, candIdxs_eq_range _ _ hp, List.length_range])
  unfold search_best_B_scale
  rw [hmap, hchunks]
  simp only [bind, Except.bind]
  have hbound := bestIdx_bound m chunks hchP hn
  rw [gatherRow_take c _ m.eq_n hbound, gatherRow_take z _ m.eq_n hbound]

theorem mapM_ok_length {α β : Type} (f : α → Except QuantErr β) :
    ∀ (l : List α) (bs : List β), l.mapM f = .ok bs → bs.length = l.length := by
  intro l
  induction l with
  | nil =>
    intro bs h
    simp only [List.mapM_nil, pure, Except.pure, Except.ok.injEq] at h
    rw [← h]
    rfl
  | cons a as ih =>
    intro bs h
    rw [List.mapM_cons] at h
    cases hfa : f a with
    | error e =>
      rw [hfa] at h
      simp only [bind, Except.bind] at h
      exact absurd h (by simp)
    | ok b =>
      rw [hfa] at h
      simp only [bind, Except.bind] at h
      cases hmas : as.mapM f with
      | error e =>
        rw [hmas] at h
        simp only [Except.bind] at h
        exact absurd h (by simp)
      | ok bs' =>
        rw [hmas] at h
        simp only [Except.bind, pure, Except.pure, Except.ok.injEq] at h
        rw [← h, List.length_cons, List.length_cons, ih bs' hmas]

theorem mapM_ok_mem {α β : Type} (f : α → Except QuantErr β) (P : β → Prop)
    (hP : ∀ a b, f a = .ok b → P b) :
    ∀ (l : List α) (bs : List β), l.mapM f = .ok bs → ∀ b ∈ bs, P b := by
  intro l
  induction l with
  | nil =>
    intro bs h
    simp only [List.mapM_nil, pure, Except.pure, Except.ok.injEq] at h
    rw [← h]
    intro b hb
    exact absurd hb (by simp)
  | cons a as ih =>
    intro bs h
    rw [List.mapM_cons] at h
    cases hfa : f a with
    | error e =>
      rw [hfa] at h
      simp only [bind, Except.bind] at h
      exact absurd h (by simp)
    | ok b0 =>
      rw [hfa] at h
      simp only [bind, Except.bind] at h
      cases hmas : as.mapM f with
      | error e =>
        rw [hmas] at h
        simp only [Except.bind] at h
        exact absurd h (by simp)
      | ok bs' =>
        rw [hmas] at h
        simp only [Except.bind, pure, Except.pure, Except.ok.injEq] at h
        rw [← h]
        intro b hb
        rcases List.mem_cons.mp hb with rfl | hmem
        · exact hP a b hfa
        · exact ih bs' hmas b hmem

/-- Whatever the metric, a *successful* chunk evaluation returns one
similarity row per visited candidate index. -/
theorem chunkScoresA_ok_length (m : MatMulState) (sc zp : List (List ℝ))
    (b_st : ℕ) (rows : List (List ℝ))
    (hok : chunkScoresA m sc zp b_st = .ok rows) :
    rows.length = (candIdxs m.eq_n m.parallel_eq_n).length := by
  unfold chunkScoresA at hok
  dsimp only at hok
  cases hX : quant_input_B m
      (sliceT4 m.raw_input.2 b_st (min m.calib_size (b_st + m.calib_batch_size))) with
  | error e =>
    rw [hX] at hok
    simp only [bind, Except.bind] at hok
    exact absurd hok (by simp)
  | ok Bq =>
    rw [hX] at hok
    simp only [bind, Except.bind] at hok
    exact mapM_ok_length _ _ _ hok

theorem chunkScoresB_ok_length (m : MatMulState) (sc zp : List (List ℝ))
    (b_st : ℕ) (rows : List (List ℝ))
    (hok : chunkScoresB m sc zp b_st = .ok rows) :
    rows.length = (candIdxs m.eq_n m.parallel_eq_n).length := by
  unfold chunkScoresB at hok
  dsimp only at hok
  cases hX : quant_input_A m
      (sliceT4 m.raw_input.1 b_st (min m.calib_size (b_st + m.calib_batch_size))) with
  | error e =>
    rw [hX] at hok
    simp only [bind, Except.bind] at hok
    exact absurd hok (by simp)
  | ok Aq =>
    rw [hX] at hok
    simp only [bind, Except.bind] at hok
    exact mapM_ok_length _ _ _ hok

/-- Metric-independent: whenever `_search_best_A_scale` returns, the
per-head best indices form one index per head slot, each below `eq_n`. -/
theorem searchA_ok_idxs {m : MatMulState} {c z : List (List ℝ)}
    {p : MatMulState × List ℕ} (hn : 1 ≤ m.eq_n) (hp : 1 ≤ m.parallel_eq_n)
    (h : search_best_A_scale m c z = .ok p) :
    p.2.length = HcolsOf m ∧ ∀ i ∈ p.2, i < m.eq_n := by
  unfold search_best_A_scale at h
  cases hX : (chunkList 0 m.calib_size m.calib_batch_size).mapM
      (chunkScoresA m c z) with
  | error e =>
    rw [hX] at h
    simp only [bind, Except.bind] at h
    exact absurd h (by simp)
  | ok chunks =>
    rw [hX] at h
    simp only [bind, Except.bind, Except.ok.injEq] at h
    have hchP : ∀ ch ∈ chunks, ch.length = m.eq_n :=
      mapM_ok_mem (chunkScoresA m c z) (fun rows => rows.length = m.eq_n)
        (fun b rows hb => by
          show rows.length = m.eq_n
          rw [chunkScoresA_ok_length m c z b rows hb,
            candIdxs_eq_range _ _ hp, List.length_range])
        _ chunks hX
    have h2 : ((List.range (HcolsOf m)).map fun hh =>
        argmaxIdx ((chunks.foldl addRows
          (List.replicate m.eq_n (List.replicate (HcolsOf m) 0))).map
            fun row => row.getD hh 0)) = p.2 := congrArg Prod.snd h
    rw [← h2]
    exact ⟨by rw [List.length_map, List.length_range],
      bestIdx_bound m chunks hchP hn⟩

theorem searchB_ok_idxs {m : MatMulState} {c z : List (List ℝ)}
    {p : MatMulState × List ℕ} (hn : 1 ≤ m.eq_n) (hp : 1 ≤ m.parallel_eq_n)
    (h : search_best_B_scale m c z = .ok p) :
    p.2.length = HcolsOf m ∧ ∀ i ∈ p.2, i < m.eq_n := by
  unfold search_best_B_scale at h
  cases hX : (chunkList 0 m.calib_size m.calib_batch_size).mapM
      (chunkScoresB m c z) with
  | error e =>
    rw [hX] at h
    simp only [bind, Except.bind] at h
    exact absurd h (by simp)
  | ok chunks =>
    rw [hX] at h
    simp only [bind, Except.bind, Except.ok.injEq] at h
    have hchP : ∀ ch ∈ chunks, ch.length = m.eq_n :=
      mapM_ok_mem (chunkScoresB m c z) (fun rows => rows.length = m.eq_n)
        (fun b rows hb => by
          show rows.length = m.eq_n
          rw [chunkScoresB_ok_length m c z b rows hb,
            candIdxs_eq_range _ _ hp, List.length_range])
        _ chunks hX
    have h2 : ((List.range (HcolsOf m)).map fun hh =>
        argmaxIdx ((chunks.foldl addRows
          (List.replicate m.eq_n (List.replicate (HcolsOf m) 0))).map
            fun row => row.getD hh 0)) = p.2 := congrArg Prod.snd h
    rw [← h2]
    exact ⟨by rw [List.length_map, List.length_range],
      bestIdx_bound m chunks hchP hn⟩

/-- Metric-independent: the `A`-side search — whether it succeeds or
signals an error — is unchanged when the candidate grids are truncated to
their first `eq_n` rows. -/
theorem searchA_take_eq_any (m : MatMulState) (c z : List (List ℝ))
    (hn : 1 ≤ m.eq_n) (hp : 1 ≤ m.parallel_eq_n) :
    search_best_A_scale m (c.take m.eq_n) (z.take m.eq_n) =
      search_best_A_scale m c z := by
  have hmap : (chunkList 0 m.calib_size m.calib_batch_size).mapM
      (chunkScoresA m (c.take m.eq_n) (z.take m.eq_n)) =
      (chunkList 0 m.calib_size m.calib_batch_size).mapM (chunkScoresA m c z) :=
    mapM_congr _ _ _ fun b _ => chunkScoresA_take m c z b hp
  unfold search_best_A_scale
  rw [hmap]
  cases hX : (chunkList 0 m.calib_size m.calib_batch_size).mapM
      (chunkScoresA m c z) with
  | error e => rfl
  | ok chunks =>
    simp only [bind, Except.bind]
    have hchP : ∀ ch ∈ chunks, ch.length = m.eq_n :=
      mapM_ok_mem (chunkScoresA m c z) (fun rows => rows.length = m.eq_n)
        (fun b rows hb => by
          show rows.length = m.eq_n
          rw [chunkScoresA_ok_length m c z b rows hb,
            candIdxs_eq_range _ _ hp, List.length_range])
        _ chunks hX
    have hbound := bestIdx_bound m chunks hchP hn
    rw [gatherRow_take c _ m.eq_n hbound, gatherRow_take z _ m.eq_n hbound]

theorem searchB_take_eq_any (m : MatMulState) (c z : List (List ℝ))
    (hn : 1 ≤ m.eq_n) (hp : 1 ≤ m.parallel_eq_n) :
    search_best_B_scale m (c.take m.eq_n) (z.take m.eq_n) =
      search_best_B_scale m c z := by
  have hmap : (chunkList 0 m.calib_size m.calib_batch_size).mapM
      (chunkScoresB m (c.take m.eq_n) (z.take m.eq_n)) =
      (chunkList 0 m.calib_size m.calib_batch_size).mapM (chunkScoresB m c z) :=
    mapM_congr _ _ _ fun b _ => chunkScoresB_take m c z b hp
  unfold search_best_B_scale
  rw [hmap]
  cases hX : (chunkList 0 m.calib_size m.calib_batch_size).mapM
      (chunkScoresB m c z) with
  | error e => rfl
  | ok chunks =>
    simp only [bind, Except.bind]
    have hchP : ∀ ch ∈ chunks, ch.length = m.eq_n :=
      mapM_ok_mem (chunkScoresB m c z) (fun rows => rows.length = m.eq_n)
        (fun b rows hb => by
          show rows.length = m.eq_n
          rw [chunkScoresB_ok_length m c z b rows hb,
            candIdxs_eq_range _ _ hp, List.length_range])
        _ chunks hX
    have hbound := bestIdx_bound m chunks hchP hn
    rw [gatherRow_take c _ m.eq_n hbound, gatherRow_take z _ m.eq_n hbound]

/-- C10: although the candidate grids carry `eq_n + 1` rows, each per-side
search — for *every* invocation, whatever the metric — walks
`range(0, eq_n, parallel_eq_n)` and so evaluates only the first `eq_n`
candidates: its result (success or error alike) is unchanged when the
grids are truncated to their first `eq_n` rows, and whenever it returns,
the per-head-slot best index lies in `[0, eq_n - 1]` and what is written
into the quantizer is the gather of the candidate grids at those indices —
the final full-range (`p = 1.0`) candidate at row `eq_n` is never
evaluated, selected, nor written. -/
theorem C10_full_range_candidate_unused (m : MatMulState) (c z : List (List ℝ))
    (hn : 1 ≤ m.eq_n) (hp : 1 ≤ m.parallel_eq_n) :
    (∀ m' idxs, search_best_A_scale m c z = .ok (m', idxs) →
        idxs.length = HcolsOf m ∧ (∀ i ∈ idxs, i < m.eq_n) ∧
        m'.A_quantizer.scale = gatherRow c idxs ∧
        m'.A_quantizer.zero_point = gatherRow z idxs) ∧
    search_best_A_scale m (c.take m.eq_n) (z.take m.eq_n) =
      search_best_A_scale m c z ∧
    (∀ m' idxs, search_best_B_scale m c z = .ok (m', idxs) →
        idxs.length = HcolsOf m ∧ (∀ i ∈ idxs, i < m.eq_n) ∧
        m'.B_quantizer.scale = gatherRow c idxs ∧
        m'.B_quantizer.zero_point = gatherRow z idxs) ∧
    search_best_B_scale m (c.take m.eq_n) (z.take m.eq_n) =
      search_best_B_scale m c z := by
  refine ⟨?_, searchA_take_eq_any m c z hn hp, ?_, searchB_take_eq_any m c z hn hp⟩
  · intro m' idxs hok
    obtain ⟨hlen, hbound⟩ := searchA_ok_idxs hn hp hok
    have hrec : m' = { m with A_quantizer :=
        { m.A_quantizer with
          scale := gatherRow c idxs, zero_point := gatherRow z idxs } } :=
      searchA_ok hok
    exact ⟨hlen, hbound, by rw [hrec], by rw [hrec]⟩
  · intro m' idxs hok
    obtain ⟨hlen, hbound⟩ := searchB_ok_idxs hn hp hok
    have hrec : m' = { m with B_quantizer :=
        { m.B_quantizer with
          scale := gatherRow c idxs, zero_point := gatherRow z idxs } } :=
      searchB_ok hok
    exact ⟨hlen, hbound, by rw [hrec], by rw [hrec]⟩

/-- C10 (witness for `C10_full_range_candidate_unused`). -/
theorem C10_full_range_candidate_unused_witness :
    (1 ≤ exC10.eq_n ∧ 1 ≤ exC10.parallel_eq_n) ∧
    search_best_A_scale exC10 ([].take exC10.eq_n) ([].take exC10.eq_n) =
      search_best_A_scale exC10 [] [] :=
  ⟨⟨by decide, by decide⟩,
   (C10_full_range_candidate_unused exC10 [] [] (by decide) (by decide)).2.1⟩

/-! ### C3 — what the other side contributes to the first search -/

theorem roundTE_of_bounds (x : ℝ) (n : ℤ) (h0 : (n : ℝ) ≤ x)
    (h1 : x < (n : ℝ) + 1 / 2) : roundTE x = n := by
  have hfl : ⌊x⌋ = n := by
    rw [Int.floor_eq_iff]
    exact ⟨h0, by linarith⟩
  have hfr : Int.fract x ≠ 1 / 2 := by
    rw [Int.fract, hfl]
    intro hc
    have hx : x = (n : ℝ) + 1 / 2 := by linarith
    linarith
  rw [roundTE, if_neg hfr, round_eq, Int.floor_eq_iff]
  constructor
  · linarith
  · linarith

theorem getD_zipWith {α β γ : Type} (f : α → β → γ) (xs : List α) (ys : List β)
    (i : ℕ) (hx : i < xs.length) (hy : i < ys.length) (d : γ) (dx : α) (dy : β) :
    (List.zipWith f xs ys).getD i d = f (xs.getD i dx) (ys.getD i dy) := by
  rw [List.getD_eq_getElem _ _ (by rw [List.length_zipWith]; omega),
    List.getElem_zipWith, List.getD_eq_getElem _ _ hx, List.getD_eq_getElem _ _ hy]

theorem getD_map_lt {α β : Type} (f : α → β) (l : List α) (i : ℕ)
    (h : i < l.length) (d : β) (d' : α) :
    (l.map f).getD i d = f (l.getD i d') := by
  rw [List.getD_eq_getElem _ _ (by rw [List.length_map]; exact h), List.getElem_map,
    List.getD_eq_getElem _ _ h]

theorem sortR_pair : sortR [(0 : ℝ), 100000] = [(0 : ℝ), 100000] := by
  show insertR 0 (insertR 100000 []) = _
  simp only [insertR]
  rw [if_pos (by norm_num : (0 : ℝ) ≤ 100000)]

theorem quantile_up_val : quantileLinear [(0 : ℝ), 100000] 0.99999 = 99999 := by
  unfold quantileLinear
  rw [sortR_pair]
  dsimp only
  have hpos : (0.99999 : ℝ) * ((([(0 : ℝ), 100000] : List ℝ).length : ℝ) - 1) =
      99999 / 100000 := by
    norm_num
  rw [hpos]
  have hfl : ⌊(99999 / 100000 : ℝ)⌋ = 0 := by
    rw [Int.floor_eq_iff]
    norm_num
  rw [hfl]
  norm_num

theorem quantile_lo_val : quantileLinear [(0 : ℝ), 100000] (1 - 0.99999) = 1 := by
  unfold quantileLinear
  rw [sortR_pair]
  dsimp only
  have hpos : (1 - 0.99999 : ℝ) * ((([(0 : ℝ), 100000] : List ℝ).length : ℝ) - 1) =
      1 / 100000 := by
    norm_num
  rw [hpos]
  have hfl : ⌊(1 / 100000 : ℝ)⌋ = 0 := by
    rw [Int.floor_eq_iff]
    norm_num
  rw [hfl]
  norm_num

theorem exC3upB_len : exC3upB.length = 3 := by
  unfold exC3upB
  rw [List.length_map, pctLevels_length]

theorem exC3loB_len : exC3loB.length = 3 := by
  unfold exC3loB
  rw [List.length_map, pctLevels_length]

theorem exC3_pct_seed : (pctLevels 2 0.999 0.99999 0.1).getD 1 0 = 0.99999 :=
  pctLevels_getD_seed 2 0.999 0.99999 0.1 (by norm_num)

theorem exC3upB_row : exC3upB.getD 1 [] = [(99999 : ℝ)] := by
  unfold exC3upB
  rw [getD_map_lt _ _ 1 (by rw [pctLevels_length]; norm_num) [] 0]
  show [quantileLinear [(0 : ℝ), 100000] ((pctLevels 2 0.999 0.99999 0.1).getD 1 0)] = _
  rw [exC3_pct_seed, quantile_up_val]

theorem exC3loB_row : exC3loB.getD 1 [] = [(1 : ℝ)] := by
  unfold exC3loB
  rw [getD_map_lt _ _ 1 (by rw [pctLevels_length]; norm_num) [] 0]
  show [quantileLinear [(0 : ℝ), 100000]
      (1 - (pctLevels 2 0.999 0.99999 0.1).getD 1 0)] = _
  rw [exC3_pct_seed, quantile_lo_val]

theorem exC3_Bsc_row : (scaleCandsOf exC3upB exC3loB 1).getD 1 [] = [(99998 : ℝ)] := by
  unfold scaleCandsOf
  rw [getD_zipWith _ _ _ 1 (by rw [exC3upB_len]; norm_num)
      (by rw [exC3loB_len]; norm_num) [] [] [], exC3upB_row, exC3loB_row]
  show [((99999 : ℝ) - 1) / (2 * ((1 : ℕ) : ℝ) - 1)] = [(99998 : ℝ)]
  norm_num

theorem exC3_Bzp_row :
    (zpCandsOf exC3loB (scaleCandsOf exC3upB exC3loB 1)).getD 1 [] = [(0 : ℝ)] := by
  have hsc_len : (scaleCandsOf exC3upB exC3loB 1).length = 3 := by
    unfold scaleCandsOf
    rw [List.length_zipWith, exC3upB_len, exC3loB_len, min_self]
  unfold zpCandsOf
  rw [getD_zipWith _ _ _ 1 (by rw [exC3loB_len]; norm_num)
      (by rw [hsc_len]; norm_num) [] [] [], exC3loB_row, exC3_Bsc_row]
  show [-((roundTE ((1 : ℝ) / 99998) : ℤ) : ℝ)] = [(0 : ℝ)]
  rw [roundTE_of_bounds ((1 : ℝ) / 99998) 0 (by norm_num) (by norm_num)]
  norm_num

theorem seeded_exC3_B_scale : (seededState exC3 0).B_quantizer.scale = [(99998 : ℝ)] := by
  show (scaleCandsOf exC3upB exC3loB 1).getD 1 [] = _
  exact exC3_Bsc_row

theorem seeded_exC3_B_zp : (seededState exC3 0).B_quantizer.zero_point = [(0 : ℝ)] := by
  show (zpCandsOf exC3loB (scaleCandsOf exC3upB exC3loB 1)).getD 1 [] = _
  exact exC3_Bzp_row

theorem seeded_exC3_Bq :
    (seededState exC3 0).B_quantizer =
      ⟨false, 1, 1, false, 1, true, false, [(99998 : ℝ)], [(0 : ℝ)]⟩ := by
  have h : (⟨false, 1, 1, false, 1, true, false, [(99998 : ℝ)], [(0 : ℝ)]⟩ :
      UniformQuantizer) =
      { (seededState exC3 0).B_quantizer with
        scale := [(99998 : ℝ)], zero_point := [(0 : ℝ)] } := rfl
  rw [h, ← seeded_exC3_B_scale, ← seeded_exC3_B_zp]

theorem uqElt_exC3_zero : uqElt false 1 99998 0 (0 : ℝ) = 0 := by
  show (clampR 0 (2 * ((1 : ℕ) : ℝ) - 1)
      (((roundTE ((0 : ℝ) / 99998) : ℤ) : ℝ) + ((roundTE (0 : ℝ) : ℤ) : ℝ)) -
      ((roundTE (0 : ℝ) : ℤ) : ℝ)) * 99998 = 0
  rw [show ((0 : ℝ) / 99998) = 0 from by norm_num,
    roundTE_of_bounds (0 : ℝ) 0 (by norm_num) (by norm_num)]
  norm_num [clampR, max_def, min_def]

theorem uqElt_exC3_big : uqElt false 1 99998 0 (100000 : ℝ) = 99998 := by
  show (clampR 0 (2 * ((1 : ℕ) : ℝ) - 1)
      (((roundTE ((100000 : ℝ) / 99998) : ℤ) : ℝ) + ((roundTE (0 : ℝ) : ℤ) : ℝ)) -
      ((roundTE (0 : ℝ) : ℤ) : ℝ)) * 99998 = 99998
  rw [roundTE_of_bounds ((100000 : ℝ) / 99998) 1 (by norm_num) (by norm_num),
    roundTE_of_bounds (0 : ℝ) 0 (by norm_num) (by norm_num)]
  norm_num [clampR, max_def, min_def]

/-- C3 (counterexample): on `exC3`, the first chunk of the very first
`A`-side search covers the whole calibration set, and the other side `B`
does *not* enter the recomputation as its unquantized float tensor: the
seeded `B` quantizer (scale `99998`, zero-point `0`) maps the raw `B`
tensor `[0, 100000]` to `[0, 99998] ≠ [0, 100000]`. -/
theorem C3_counterexample :
    sliceT4 exC3.raw_input.2 0
        (min (seededState exC3 0).calib_size
          (0 + (seededState exC3 0).calib_batch_size)) = exC3.raw_input.2 ∧
    quant_input_B (seededState exC3 0) exC3.raw_input.2 =
      .ok [[[[(0 : ℝ)], [99998]]]] ∧
    quant_input_B (seededState exC3 0) exC3.raw_input.2 ≠
      .ok exC3.raw_input.2 := by
  have hfwd : quant_input_B (seededState exC3 0) exC3.raw_input.2 =
      .ok [[[[(0 : ℝ)], [99998]]]] := by
    show UniformQuantizer.forward (seededState exC3 0).B_quantizer exT3 = _
    rw [seeded_exC3_Bq]
    show Except.ok
        [[[[uqElt false 1 99998 0 (0 : ℝ)], [uqElt false 1 99998 0 100000]]]] =
      Except.ok [[[[(0 : ℝ)], [99998]]]]
    rw [uqElt_exC3_zero, uqElt_exC3_big]
  refine ⟨rfl, hfwd, ?_⟩
  rw [hfwd]
  intro hcontra
  have h1 : ([[[[(0 : ℝ)], [99998]]]] : T4) = exC3.raw_input.2 :=
    Except.ok.inj hcontra
  have h2 : (99998 : ℝ) = 100000 :=
    congrArg (fun t : T4 => (((t.headD []).headD []).getD 1 []).headD 0) h1
  norm_num at h2

/-- C3 (amended): the whole search pipeline runs on the seeded state — both
quantizers are already initialized (with the second-to-last candidate row)
when the first per-side search begins — and in every chunk of the per-side
searches the other side enters the recomputation through its *current
quantizer* (`quant_input_B` / `quant_input_A`), never as the raw float
tensor. -/
theorem C3_first_search_uses_seeded_quantizer (m : MatMulState) (mem : ℕ)
    (hn : 2 ≤ m.eq_n) :
    hyperparameter_searching m mem =
      postSeedSearch (seededState m mem) m.search_round ∧
    (seededState m mem).A_quantizer.inited = true ∧
    (seededState m mem).B_quantizer.inited = true ∧
    (seededState m mem).B_quantizer.scale =
      (B_scale_cands (initialize_calib_parameters m mem)).getD (m.eq_n - 1) [] ∧
    (∀ (s : MatMulState) (c z : List (List ℝ)) (b_st : ℕ) (Bq : T4),
      quant_input_B s (sliceT4 s.raw_input.2 b_st
          (min s.calib_size (b_st + s.calib_batch_size))) = .ok Bq →
      chunkScoresA s c z b_st =
        (candIdxs s.eq_n s.parallel_eq_n).mapM
          (candScoreA s
            (sliceT4 s.raw_input.1 b_st (min s.calib_size (b_st + s.calib_batch_size)))
            Bq
            (sliceT4 s.raw_out b_st (min s.calib_size (b_st + s.calib_batch_size)))
            (s.raw_grad.map fun g =>
              sliceT4 g b_st (min s.calib_size (b_st + s.calib_batch_size)))
            c z)) ∧
    (∀ (s : MatMulState) (c z : List (List ℝ)) (b_st : ℕ) (Aq : T4),
      quant_input_A s (sliceT4 s.raw_input.1 b_st
          (min s.calib_size (b_st + s.calib_batch_size))) = .ok Aq →
      chunkScoresB s c z b_st =
        (candIdxs s.eq_n s.parallel_eq_n).mapM
          (candScoreB s Aq
            (sliceT4 s.raw_input.2 b_st (min s.calib_size (b_st + s.calib_batch_size)))
            (sliceT4 s.raw_out b_st (min s.calib_size (b_st + s.calib_batch_size)))
            (s.raw_grad.map fun g =>
              sliceT4 g b_st (min s.calib_size (b_st + s.calib_batch_size)))
            c z)) := by
  refine ⟨rfl, rfl, rfl, ?_, ?_, ?_⟩
  · show (B_scale_cands (initialize_calib_parameters m mem)).getD
        ((B_scale_cands (initialize_calib_parameters m mem)).length - 2) [] = _
    rw [B_scale_cands_length]
    rfl
  · intro s c z b_st Bq hq
    unfold chunkScoresA
    dsimp only
    rw [hq]
    rfl
  · intro s c z b_st Aq hq
    unfold chunkScoresB
    dsimp only
    rw [hq]
    rfl

/-- C3 (witness for `C3_first_search_uses_seeded_quantizer`). -/
theorem C3_first_search_uses_seeded_quantizer_witness :
    2 ≤ exC3.eq_n ∧ (seededState exC3 0).B_quantizer.inited = true ∧
    hyperparameter_searching exC3 0 =
      postSeedSearch (seededState exC3 0) exC3.search_round :=
  ⟨by decide,
   (C3_first_search_uses_seeded_quantizer exC3 0 (by decide)).2.2.1,
   (C3_first_search_uses_seeded_quantizer exC3 0 (by decide)).1⟩

end APHQ
